import Mathlib

/-!
Verification of the document-editing core of `jp_course_editor.py`:
the `CourseModel` tree operations (structural normalization, node
addressing, add/delete/move), the undo/redo history of `EditorApp`,
and the asynchronous single-flight save controller.

JSON values are embedded as the inductive `JVal`; Python dicts are
ordered association lists (first-occurrence lookup, in-place update,
append on new key), matching Python's insertion-ordered `dict`.
-/

-- ---------------------------------------------------------------------------
-- Definitions: data model and operations, translated from jp_course_editor.py
-- ---------------------------------------------------------------------------

/-- A JSON-like value as produced by `json.load`: the in-memory document
of the editor.  Objects keep key order (Python dicts are ordered). -/
inductive JVal where
  | null : JVal
  | bool (b : Bool) : JVal
  | num (n : Int) : JVal
  | str (s : String) : JVal
  | arr (xs : List JVal) : JVal
  | obj (kvs : List (String × JVal)) : JVal

instance : Inhabited JVal := ⟨.null⟩

/-- The constant `DEFAULT_ITEM_IMAGE` from the source. -/
def DEFAULT_ITEM_IMAGE : String := "data/course-img/transparent.png"

/-- Python `d.get(k)` on a dict: value of the first (only) occurrence. -/
def lookupKey (k : String) : List (String × JVal) → Option JVal
  | [] => none
  | (k', v) :: rest => if k' = k then some v else lookupKey k rest

/-- Python `d[k] = v` on a dict: replace in place when the key exists
(keeping its position), append at the end otherwise. -/
def setKey (k : String) (v : JVal) : List (String × JVal) → List (String × JVal)
  | [] => [(k, v)]
  | (k', v') :: rest => if k' = k then (k, v) :: rest else (k', v') :: setKey k v rest

/-- Python `d.setdefault(k, v)`: insert `(k, v)` at the end only when `k` is absent. -/
def setdefault (k : String) (v : JVal) (l : List (String × JVal)) : List (String × JVal) :=
  match lookupKey k l with
  | some _ => l
  | none => l ++ [(k, v)]

/-- The fields of `v` when it is an object (`isinstance(v, dict)`). -/
def objFields : JVal → Option (List (String × JVal))
  | .obj kvs => some kvs
  | _ => none

/-- The elements of `v` when it is an array (`isinstance(v, list)`). -/
def arrElems : JVal → Option (List JVal)
  | .arr xs => some xs
  | _ => none

/-- The list stored under key `k`, taking `[]` when the key is missing
or its value is not a list (`if not isinstance(xs, list): xs = []`). -/
def getList (k : String) (fs : List (String × JVal)) : List JVal :=
  match lookupKey k fs with
  | some (.arr xs) => xs
  | _ => []

/-- The `course` repair step of `CourseModel._normalize_structure`:
`course` is replaced by `{}` exactly when it is missing or not a dict. -/
def fixCourse (fs : List (String × JVal)) : List (String × JVal) :=
  match lookupKey "course" fs with
  | some (.obj _) => fs
  | _ => setKey "course" (.obj []) fs

/-- Item pass of `CourseModel._normalize_structure`: non-dict items are
replaced by `{}`; then `setdefault` of `ja`, `it`, `image` (in that
order, so missing keys are appended in that order). -/
def normItem (v : JVal) : JVal :=
  let fs := (objFields v).getD []
  .obj (setdefault "image" (.str DEFAULT_ITEM_IMAGE) (setdefault "it" (.str "") (setdefault "ja" (.str "") fs)))

/-- Lesson pass of `CourseModel._normalize_structure`: non-dict lessons
become `{}`; `setdefault` of `name` and `slug`; the `items` key is
forced to a list (missing/non-list becomes `[]`) whose elements are
item-normalized in place. -/
def normLesson (v : JVal) : JVal :=
  let fs := setdefault "slug" (.str "") (setdefault "name" (.str "") ((objFields v).getD []))
  .obj (setKey "items" (.arr ((getList "items" fs).map normItem)) fs)

/-- Category pass of `CourseModel._normalize_structure`. -/
def normCat (v : JVal) : JVal :=
  let fs := setdefault "slug" (.str "") (setdefault "name" (.str "") ((objFields v).getD []))
  .obj (setKey "lessons" (.arr ((getList "lessons" fs).map normLesson)) fs)

/-- Embeds `CourseModel._normalize_structure` as a function on the document:
a non-dict document becomes `{}`; `course` is forced to a dict (only
when it is not already one); `categories` is forced to a list whose
elements are category-normalized in place. -/
def normalize_structure (d : JVal) : JVal :=
  let fs := fixCourse ((objFields d).getD [])
  .obj (setKey "categories" (.arr ((getList "categories" fs).map normCat)) fs)

/-- A `NodeRef` is a positional reference to a node of the tree.  The Python
dataclass stores optional indices; a reference actually used with a
given kind always carries the indices of its path, which is what the
constructors enforce here. -/
inductive NodeRef where
  | course : NodeRef
  | category (cat_i : Nat) : NodeRef
  | lesson (cat_i lesson_i : Nat) : NodeRef
  | item (cat_i lesson_i item_i : Nat) : NodeRef
  deriving DecidableEq

/-- Python `d[k]` on the document: fails (Python `TypeError`/`KeyError`) when
`d` is not a dict or the key is absent. -/
def jget (d : JVal) (k : String) : Option JVal := do
  let fs ← objFields d
  lookupKey k fs

/-- Python `v[i]` on a list value: fails (`TypeError`/`IndexError`) when `v` is
not a list or the index is out of bounds. -/
def jidx (v : JVal) (i : Nat) : Option JVal := do
  let xs ← arrElems v
  xs[i]?

/-- Embeds `CourseModel.get_node`: resolves a reference by indexing; `none`
models the `KeyError`/`IndexError`/`TypeError` the Python code raises
on a stale reference. -/
def get_node (d : JVal) : NodeRef → Option JVal
  | .course => jget d "course"
  | .category ci => do jidx (← jget d "categories") ci
  | .lesson ci li => do
      let cat ← jidx (← jget d "categories") ci
      jidx (← jget cat "lessons") li
  | .item ci li ii => do
      let cat ← jidx (← jget d "categories") ci
      let lesson ← jidx (← jget cat "lessons") li
      jidx (← jget lesson "items") ii

/-- A reference is valid in the current tree when `get_node` resolves it. -/
def ValidRef (d : JVal) (r : NodeRef) : Prop := (get_node d r).isSome

instance (d : JVal) (r : NodeRef) : Decidable (ValidRef d r) := by
  unfold ValidRef
  infer_instance

/-- Fields of the document object (total view; equals the real fields
whenever the document is a dict). -/
def docFields (d : JVal) : List (String × JVal) := (objFields d).getD []

/-- The `categories` list of the document (total view). -/
def docCats (d : JVal) : List JVal := getList "categories" (docFields d)

/-- Category at index `ci` (total view). -/
def catAt (d : JVal) (ci : Nat) : JVal := ((docCats d)[ci]?).getD .null

def catFields (d : JVal) (ci : Nat) : List (String × JVal) := (objFields (catAt d ci)).getD []

/-- The `lessons` list of category `ci` (total view). -/
def lessonsAt (d : JVal) (ci : Nat) : List JVal := getList "lessons" (catFields d ci)

def lessonAt (d : JVal) (ci li : Nat) : JVal := ((lessonsAt d ci)[li]?).getD .null

def lessonFields (d : JVal) (ci li : Nat) : List (String × JVal) :=
  (objFields (lessonAt d ci li)).getD []

/-- The `items` list of lesson `(ci, li)` (total view). -/
def itemsAt (d : JVal) (ci li : Nat) : List JVal := getList "items" (lessonFields d ci li)

/-- Python `str.strip()` (whitespace at both ends removed), written with
structural list recursion so that it evaluates on literals.  `Char.isWhitespace`
covers space, tab, CR and LF, the common cases of Python's default strip set. -/
def py_strip (s : String) : String :=
  ⟨((s.data.dropWhile Char.isWhitespace).reverse.dropWhile Char.isWhitespace).reverse⟩

/-- Embeds `CourseModel.add_item`: appends `{"ja": ja, "it": it, "image": img}`
to the target lesson's `items`, where `img` is the stripped caller
value, or `DEFAULT_ITEM_IMAGE` when the caller value is `None`, empty
or whitespace-only (`(image or "").strip() or DEFAULT_ITEM_IMAGE`). -/
def add_item (d : JVal) (cat_i lesson_i : Nat) (ja it : String)
    (image : Option String) : Option (JVal × NodeRef) := do
  let img := if (py_strip (image.getD "") = "") then DEFAULT_ITEM_IMAGE
    else py_strip (image.getD "")
  let item := JVal.obj [("ja", .str ja), ("it", .str it), ("image", .str img)]
  let fs ← objFields d
  let cv ← lookupKey "categories" fs
  let cats ← arrElems cv
  let cat ← cats[cat_i]?
  let cfs ← objFields cat
  let lv ← lookupKey "lessons" cfs
  let ls ← arrElems lv
  let lesson ← ls[lesson_i]?
  let lfs ← objFields lesson
  let iv ← lookupKey "items" lfs
  let items ← arrElems iv
  let lesson' := JVal.obj (setKey "items" (.arr (items ++ [item])) lfs)
  let cat' := JVal.obj (setKey "lessons" (.arr (ls.set lesson_i lesson')) cfs)
  return (JVal.obj (setKey "categories" (.arr (cats.set cat_i cat')) fs),
    .item cat_i lesson_i items.length)

/-- Embeds `CourseModel.delete_node`: removes the referenced node (root delete
is a no-op returning the input reference) and computes the successor
reference: the clamped index `min i (len - 1)` of the shrunken sibling
list, or the parent when the sibling list became empty. -/
def delete_node (d : JVal) (r : NodeRef) : Option (JVal × NodeRef) :=
  match r with
  | .course => some (d, .course)
  | .category ci => do
    let fs ← objFields d
    let cv ← lookupKey "categories" fs
    let cats ← arrElems cv
    if ci < cats.length then
      let cats' := cats.eraseIdx ci
      let r' := if cats'.length = 0 then NodeRef.course
        else NodeRef.category (min ci (cats'.length - 1))
      return (JVal.obj (setKey "categories" (.arr cats') fs), r')
    else none
  | .lesson ci li => do
    let fs ← objFields d
    let cv ← lookupKey "categories" fs
    let cats ← arrElems cv
    let cat ← cats[ci]?
    let cfs ← objFields cat
    let lv ← lookupKey "lessons" cfs
    let ls ← arrElems lv
    if li < ls.length then
      let ls' := ls.eraseIdx li
      let cat' := JVal.obj (setKey "lessons" (.arr ls') cfs)
      let r' := if ls'.length = 0 then NodeRef.category ci
        else NodeRef.lesson ci (min li (ls'.length - 1))
      return (JVal.obj (setKey "categories" (.arr (cats.set ci cat')) fs), r')
    else none
  | .item ci li ii => do
    let fs ← objFields d
    let cv ← lookupKey "categories" fs
    let cats ← arrElems cv
    let cat ← cats[ci]?
    let cfs ← objFields cat
    let lv ← lookupKey "lessons" cfs
    let ls ← arrElems lv
    let lesson ← ls[li]?
    let lfs ← objFields lesson
    let iv ← lookupKey "items" lfs
    let items ← arrElems iv
    if ii < items.length then
      let items' := items.eraseIdx ii
      let lesson' := JVal.obj (setKey "items" (.arr items') lfs)
      let cat' := JVal.obj (setKey "lessons" (.arr (ls.set li lesson')) cfs)
      let r' := if items'.length = 0 then NodeRef.lesson ci li
        else NodeRef.item ci li (min ii (items'.length - 1))
      return (JVal.obj (setKey "categories" (.arr (cats.set ci cat')) fs), r')
    else none

/-- The simultaneous swap `arr[i], arr[j] = arr[j], arr[i]`. -/
def swapAt (xs : List JVal) (i j : Nat) : List JVal :=
  (xs.set i (xs.getD j .null)).set j (xs.getD i .null)

/-- Embeds `CourseModel.move_node`: swaps the node with the sibling at index
`i + direction` when that index is in bounds, returning the moved
reference; otherwise returns the input reference with no change.  The
final Python `return ref` covers the course root. -/
def move_node (d : JVal) (r : NodeRef) (direction : Int) : Option (JVal × NodeRef) :=
  match r with
  | .course => some (d, r)
  | .category ci => do
    let fs ← objFields d
    let cv ← lookupKey "categories" fs
    let xs ← arrElems cv
    let j : Int := (ci : Int) + direction
    if 0 ≤ j ∧ j < (xs.length : Int) then
      let jn := j.toNat
      return (JVal.obj (setKey "categories" (.arr (swapAt xs ci jn)) fs), .category jn)
    else
      return (d, r)
  | .lesson ci li => do
    let fs ← objFields d
    let cv ← lookupKey "categories" fs
    let cats ← arrElems cv
    let cat ← cats[ci]?
    let cfs ← objFields cat
    let lv ← lookupKey "lessons" cfs
    let xs ← arrElems lv
    let j : Int := (li : Int) + direction
    if 0 ≤ j ∧ j < (xs.length : Int) then
      let jn := j.toNat
      let cat' := JVal.obj (setKey "lessons" (.arr (swapAt xs li jn)) cfs)
      return (JVal.obj (setKey "categories" (.arr (cats.set ci cat')) fs), .lesson ci jn)
    else
      return (d, r)
  | .item ci li ii => do
    let fs ← objFields d
    let cv ← lookupKey "categories" fs
    let cats ← arrElems cv
    let cat ← cats[ci]?
    let cfs ← objFields cat
    let lv ← lookupKey "lessons" cfs
    let ls ← arrElems lv
    let lesson ← ls[li]?
    let lfs ← objFields lesson
    let iv ← lookupKey "items" lfs
    let xs ← arrElems iv
    let j : Int := (ii : Int) + direction
    if 0 ≤ j ∧ j < (xs.length : Int) then
      let jn := j.toNat
      let lesson' := JVal.obj (setKey "items" (.arr (swapAt xs ii jn)) lfs)
      let cat' := JVal.obj (setKey "lessons" (.arr (ls.set li lesson')) cfs)
      return (JVal.obj (setKey "categories" (.arr (cats.set ci cat')) fs), .item ci li jn)
    else
      return (d, r)

/-- Checks that `delete_node` succeeds and that the successor reference
it returns resolves in the post-deletion document. -/
def delete_succ_resolves (d : JVal) (r : NodeRef) : Bool :=
  ((delete_node d r).map (fun p => (get_node p.1 p.2).isSome)).getD false

/-- All items of the document, flattened (categories, then lessons). -/
def doc_items (d : JVal) : List JVal :=
  (docCats d).flatMap (fun cat =>
    (getList "lessons" ((objFields cat).getD [])).flatMap (fun lesson =>
      getList "items" ((objFields lesson).getD [])))

/-- The check the spec asserts of a normalized document: every item has
a non-empty `image` field. -/
def doc_items_image_nonempty (d : JVal) : Bool :=
  (doc_items d).all (fun x =>
    match lookupKey "image" ((objFields x).getD []) with
    | some (.str "") => false
    | some _ => true
    | none => false)

/-- The mutable state of `EditorApp` relevant to the document, history
and save controller (UI fields and timer handles are omitted; timer
firings appear as explicit operations).  `writes` is an instrumentation
log: one entry per background write dispatched by `_start_save_async`,
recording the snapshot and version handed to the worker thread. -/
structure App where
  data : JVal
  model_version : Nat
  last_saved_version : Nat
  undo_stack : List JVal
  redo_stack : List JVal
  undo_limit : Nat
  edit_group_active : Bool
  save_in_progress : Bool
  save_pending : Bool
  save_last_error : Option String
  inflight_version : Option Nat
  inflight_snapshot : Option JVal
  writes : List (JVal × Nat)

/-- The `EditorApp.__init__` state (versions 0, empty capped-at-100 stacks,
no group, idle save controller); the model data is normalized on
construction (`CourseModel.__init__`). -/
def init_app (d : JVal) : App :=
  { data := normalize_structure d, model_version := 0, last_saved_version := 0,
    undo_stack := [], redo_stack := [], undo_limit := 100,
    edit_group_active := false, save_in_progress := false, save_pending := false,
    save_last_error := none, inflight_version := none, inflight_snapshot := none,
    writes := [] }

/-- Embeds `EditorApp._push_undo_snapshot`: append a deep copy of the document,
evict the oldest entry (`pop(0)`) when over `undo_limit`, clear the
redo stack. -/
def push_undo_snapshot (a : App) : App :=
  let us := a.undo_stack ++ [a.data]
  { a with undo_stack := if us.length > a.undo_limit then us.tail else us,
           redo_stack := [] }

/-- Embeds `EditorApp._end_coalesced_edit` (the coalescing timer firing): just
clears the active flag. -/
def end_coalesced_edit (a : App) : App := { a with edit_group_active := false }

/-- Embeds `EditorApp._begin_coalesced_edit`: pushes a snapshot and activates
the group only when none is active (the timer re-arm has no state
effect here). -/
def begin_coalesced_edit (a : App) : App :=
  if a.edit_group_active then a
  else { push_undo_snapshot a with edit_group_active := true }

/-- Embeds `EditorApp._touch_model`: re-normalize, bump the version, and close
the edit group on structural changes (scheduling timers omitted). -/
def touch_model (structural : Bool) (a : App) : App :=
  let a' := { a with data := normalize_structure a.data,
                     model_version := a.model_version + 1 }
  if structural then end_coalesced_edit a' else a'

/-- A raw document mutation (what `_apply_form_to_model` or a
`CourseModel` mutator does to `self.model.data`). -/
def apply_edit (f : JVal → JVal) (a : App) : App := { a with data := f a.data }

/-- One field edit (`_on_field_changed` / `_on_text_modified`):
begin/extend the coalesced group, mutate, touch (non-structural). -/
def field_edit (f : JVal → JVal) (a : App) : App :=
  touch_model false (apply_edit f (begin_coalesced_edit a))

/-- One structural command (`_add_category` / `_add_lesson` /
`_add_item` / `_delete_selected` / `_move_selected` core): push a
snapshot, mutate, touch (structural). -/
def structural_command (f : JVal → JVal) (a : App) : App :=
  touch_model true (apply_edit f (push_undo_snapshot a))

/-- Embeds `EditorApp._do_undo`: no-op on an empty stack; otherwise close the
group, push the current document onto the redo stack, pop the undo
stack, re-normalize, bump the version. -/
def do_undo (a : App) : App :=
  match a.undo_stack.getLast? with
  | none => a
  | some prev =>
    let a1 := end_coalesced_edit a
    { a1 with redo_stack := a1.redo_stack ++ [a1.data],
              data := normalize_structure prev,
              undo_stack := a1.undo_stack.dropLast,
              model_version := a1.model_version + 1 }

/-- Embeds `EditorApp._do_redo`: no-op on an empty stack; otherwise close the
group, push the current document onto the (capped) undo stack, pop the
redo stack, re-normalize, bump the version. -/
def do_redo (a : App) : App :=
  match a.redo_stack.getLast? with
  | none => a
  | some nxt =>
    let a1 := end_coalesced_edit a
    let us := a1.undo_stack ++ [a1.data]
    { a1 with undo_stack := if us.length > a1.undo_limit then us.tail else us,
              redo_stack := a1.redo_stack.dropLast,
              data := normalize_structure nxt,
              model_version := a1.model_version + 1 }

/-- Embeds `EditorApp._start_save_async`: while a save is in flight, only set
the pending flag; otherwise capture the snapshot and version, mark the
save in progress, clear the stored error, and dispatch the write (one
`writes` entry). -/
def start_save_async (a : App) : App :=
  if a.save_in_progress then { a with save_pending := true }
  else { a with inflight_version := some a.model_version,
                inflight_snapshot := some a.data,
                save_in_progress := true,
                save_last_error := none,
                writes := a.writes ++ [(a.data, a.model_version)] }

/-- Embeds `EditorApp._on_save_done`: clear the in-progress flag; on success
record the in-flight version as last saved and clear the error, on
failure record `err or "Unknown error"`; clear the in-flight capture;
then, if a save was queued, immediately start a new save from the
current state. -/
def on_save_done (ok : Bool) (err : Option String) (a : App) : App :=
  let a1 := { a with save_in_progress := false }
  let a2 := if ok then
      { a1 with last_saved_version := a1.inflight_version.getD a1.last_saved_version,
                save_last_error := none }
    else
      { a1 with save_last_error := some (match err with
          | some e => if e = "" then "Unknown error" else e
          | none => "Unknown error") }
  let a3 := { a2 with inflight_version := none, inflight_snapshot := none }
  if a3.save_pending then start_save_async { a3 with save_pending := false } else a3

/-- Embeds `EditorApp._is_dirty`. -/
def is_dirty (a : App) : Bool :=
  (a.model_version != a.last_saved_version) || a.save_in_progress || a.save_pending

/-- The operations that can hit the editor state: field edits,
structural commands, the coalescing-timer firing, undo/redo, a save
request (manual or autosave-timer firing), and the completion callback
of the background write. -/
inductive Op where
  | field_op (f : JVal → JVal) : Op
  | structural_op (f : JVal → JVal) : Op
  | timer_end : Op
  | undo_op : Op
  | redo_op : Op
  | request_save : Op
  | complete (ok : Bool) (err : Option String) : Op

def step (a : App) (o : Op) : App :=
  match o with
  | .field_op f => field_edit f a
  | .structural_op f => structural_command f a
  | .timer_end => end_coalesced_edit a
  | .undo_op => do_undo a
  | .redo_op => do_redo a
  | .request_save => start_save_async a
  | .complete ok err => on_save_done ok err a

def run (a : App) (ops : List Op) : App := ops.foldl step a

/-- Operations other than the background write's completion callback
(what can happen while a write is in flight). -/
def is_mid : Op → Bool :=
  fun o => match o with
  | .complete _ _ => false
  | _ => true

/-- Save requests (manual "save now" or the autosave timer firing). -/
def is_request : Op → Bool :=
  fun o => match o with
  | .request_save => true
  | _ => false

/-- One undo step of history: a mutation group.  A burst is a nonempty
run of rapid field edits (first..rest) coalesced into one snapshot; a
structural command always pushes its own snapshot. -/
inductive EditGroup where
  | structural_g (f : JVal → JVal) : EditGroup
  | burst (first : JVal → JVal) (rest : List (JVal → JVal)) : EditGroup

/-- Executes one mutation group on the editor state: a structural
command, or a burst of field edits followed by the coalescing timer
firing. -/
def run_group (a : App) (g : EditGroup) : App :=
  match g with
  | .structural_g f => structural_command f a
  | .burst f fs =>
    end_coalesced_edit (fs.foldl (fun acc fi => field_edit fi acc) (field_edit f a))

def run_groups (a : App) (gs : List EditGroup) : App := gs.foldl run_group a

/-- The document produced by one mutation group (each edit is followed
by `_touch_model`'s re-normalization). -/
def group_apply (d : JVal) : EditGroup → JVal
  | .structural_g f => normalize_structure (f d)
  | .burst f fs =>
    fs.foldl (fun acc fi => normalize_structure (fi acc)) (normalize_structure (f d))

/-- The successive documents after each group of a sequence. -/
def docs_after (d : JVal) : List EditGroup → List JVal
  | [] => []
  | g :: gs => group_apply d g :: docs_after (group_apply d g) gs

def undo_iter (a : App) : Nat → App
  | 0 => a
  | n + 1 => undo_iter (do_undo a) n

def redo_iter (a : App) : Nat → App
  | 0 => a
  | n + 1 => redo_iter (do_redo a) n

-- ---------------------------------------------------------------------------
-- Theorems
-- ---------------------------------------------------------------------------

theorem lookupKey_setKey_self (k : String) (v : JVal) (l : List (String × JVal)) :
    lookupKey k (setKey k v l) = some v := by
  induction l with
  | nil => simp [setKey, lookupKey]
  | cons hd tl ih =>
    obtain ⟨k', v'⟩ := hd
    by_cases h : k' = k
    · simp [setKey, lookupKey, h]
    · simp [setKey, lookupKey, h, ih]

theorem lookupKey_setKey_ne (k k' : String) (v : JVal) (l : List (String × JVal))
    (h : k' ≠ k) : lookupKey k (setKey k' v l) = lookupKey k l := by
  induction l with
  | nil => simp [setKey, lookupKey, h]
  | cons hd tl ih =>
    obtain ⟨k'', v''⟩ := hd
    by_cases h2 : k'' = k'
    · subst h2
      simp [setKey, lookupKey, h]
    · simp only [setKey, if_neg h2, lookupKey]
      by_cases h3 : k'' = k
      · simp [h3]
      · simp [h3, ih]

theorem setKey_of_lookup_eq (k : String) (v : JVal) (l : List (String × JVal))
    (h : lookupKey k l = some v) : setKey k v l = l := by
  induction l with
  | nil => simp [lookupKey] at h
  | cons hd tl ih =>
    obtain ⟨k', v'⟩ := hd
    by_cases h2 : k' = k
    · subst h2
      simp only [lookupKey, if_pos rfl] at h
      simp only [setKey, if_pos rfl]
      simp at h
      simp [h]
    · simp only [lookupKey, if_neg h2] at h
      simp [setKey, h2, ih h]

theorem setKey_setKey (k : String) (v v' : JVal) (l : List (String × JVal)) :
    setKey k v (setKey k v' l) = setKey k v l := by
  induction l with
  | nil => simp [setKey]
  | cons hd tl ih =>
    obtain ⟨k'', v''⟩ := hd
    by_cases h : k'' = k
    · simp [setKey, h]
    · simp [setKey, h, ih]

theorem setdefault_of_isSome (k : String) (v : JVal) (l : List (String × JVal))
    (h : (lookupKey k l).isSome) : setdefault k v l = l := by
  unfold setdefault
  cases hl : lookupKey k l with
  | none => rw [hl] at h; simp at h
  | some w => rfl

theorem lookupKey_setdefault_self_isSome (k : String) (v : JVal) (l : List (String × JVal)) :
    (lookupKey k (setdefault k v l)).isSome := by
  unfold setdefault
  cases hl : lookupKey k l with
  | none =>
    have : lookupKey k (l ++ [(k, v)]) = some v := by
      induction l with
      | nil => simp [lookupKey]
      | cons hd tl ih =>
        obtain ⟨k', v'⟩ := hd
        by_cases h : k' = k
        · simp [lookupKey, h] at hl
        · simp [lookupKey, h] at hl ⊢
          exact ih hl
    simp [this]
  | some w => simp [hl]

theorem lookupKey_setdefault_ne (k k' : String) (v : JVal) (l : List (String × JVal))
    (h : k' ≠ k) : lookupKey k (setdefault k' v l) = lookupKey k l := by
  unfold setdefault
  cases hl : lookupKey k' l with
  | none =>
    induction l with
    | nil => simp [lookupKey, h]
    | cons hd tl ih =>
      obtain ⟨k'', v''⟩ := hd
      by_cases h2 : k'' = k'
      · simp [lookupKey, h2] at hl
      · by_cases h3 : k'' = k
        · simp [lookupKey, h2, h3]
        · simp [lookupKey, h2, h3] at hl ⊢
          exact ih hl
  | some w => rfl

theorem getList_setKey_self (k : String) (xs : List JVal) (fs : List (String × JVal)) :
    getList k (setKey k (.arr xs) fs) = xs := by
  unfold getList
  rw [lookupKey_setKey_self]

theorem getList_setdefault_ne (k k' : String) (v : JVal) (fs : List (String × JVal))
    (h : k' ≠ k) : getList k (setdefault k' v fs) = getList k fs := by
  unfold getList
  rw [lookupKey_setdefault_ne _ _ _ _ h]

theorem lookupKey_fixCourse_obj (fs : List (String × JVal)) :
    ∃ c, lookupKey "course" (fixCourse fs) = some (.obj c) := by
  unfold fixCourse
  cases h : lookupKey "course" fs with
  | none => exact ⟨[], lookupKey_setKey_self _ _ _⟩
  | some w =>
    cases w with
    | obj c => exact ⟨c, h⟩
    | null => exact ⟨[], lookupKey_setKey_self _ _ _⟩
    | bool b => exact ⟨[], lookupKey_setKey_self _ _ _⟩
    | num n => exact ⟨[], lookupKey_setKey_self _ _ _⟩
    | str s => exact ⟨[], lookupKey_setKey_self _ _ _⟩
    | arr xs => exact ⟨[], lookupKey_setKey_self _ _ _⟩

theorem fixCourse_of_obj (fs : List (String × JVal)) (c : List (String × JVal))
    (h : lookupKey "course" fs = some (.obj c)) : fixCourse fs = fs := by
  unfold fixCourse
  rw [h]

theorem lookupKey_fixCourse_ne (k : String) (fs : List (String × JVal))
    (h : "course" ≠ k) : lookupKey k (fixCourse fs) = lookupKey k fs := by
  unfold fixCourse
  cases hc : lookupKey "course" fs with
  | none => exact lookupKey_setKey_ne _ _ _ _ h
  | some w =>
    cases w <;> first
      | rfl
      | exact lookupKey_setKey_ne _ _ _ _ h

/-- An object whose fields already carry `ja`, `it` and `image` is a
fixed point of the item pass. -/
theorem normItem_fixed (g : List (String × JVal))
    (hja : (lookupKey "ja" g).isSome) (hit : (lookupKey "it" g).isSome)
    (himg : (lookupKey "image" g).isSome) : normItem (.obj g) = .obj g := by
  show JVal.obj (setdefault "image" (.str DEFAULT_ITEM_IMAGE)
      (setdefault "it" (.str "") (setdefault "ja" (.str "") g))) = .obj g
  rw [setdefault_of_isSome "ja" (.str "") g hja,
    setdefault_of_isSome "it" (.str "") g hit,
    setdefault_of_isSome "image" (.str DEFAULT_ITEM_IMAGE) g himg]

theorem normItem_idem (v : JVal) : normItem (normItem v) = normItem v := by
  have hg : normItem v = .obj (setdefault "image" (.str DEFAULT_ITEM_IMAGE)
      (setdefault "it" (.str "") (setdefault "ja" (.str "") ((objFields v).getD [])))) := rfl
  rw [hg]
  apply normItem_fixed
  · rw [lookupKey_setdefault_ne _ _ _ _ (by decide), lookupKey_setdefault_ne _ _ _ _ (by decide)]
    exact lookupKey_setdefault_self_isSome _ _ _
  · rw [lookupKey_setdefault_ne _ _ _ _ (by decide)]
    exact lookupKey_setdefault_self_isSome _ _ _
  · exact lookupKey_setdefault_self_isSome _ _ _

/-- An object with `name` and `slug` present whose `items` are already
item-normalized is a fixed point of the lesson pass. -/
theorem normLesson_fixed (g : List (String × JVal)) (ys : List JVal)
    (hname : (lookupKey "name" g).isSome) (hslug : (lookupKey "slug" g).isSome)
    (hitems : lookupKey "items" g = some (.arr (ys.map normItem))) :
    normLesson (.obj g) = .obj g := by
  show JVal.obj (setKey "items"
      (.arr ((getList "items" (setdefault "slug" (.str "") (setdefault "name" (.str "") g))).map normItem))
      (setdefault "slug" (.str "") (setdefault "name" (.str "") g))) = .obj g
  rw [setdefault_of_isSome "name" (.str "") g hname, setdefault_of_isSome "slug" (.str "") g hslug]
  have hgl : getList "items" g = ys.map normItem := by
    unfold getList
    rw [hitems]
  rw [hgl, List.map_map]
  have hmap : (normItem ∘ normItem) = normItem := by
    funext x; exact normItem_idem x
  rw [hmap, setKey_of_lookup_eq "items" _ g hitems]

theorem normLesson_idem (v : JVal) : normLesson (normLesson v) = normLesson v := by
  have hg : normLesson v = .obj (setKey "items"
      (.arr ((getList "items" (setdefault "slug" (.str "")
        (setdefault "name" (.str "") ((objFields v).getD [])))).map normItem))
      (setdefault "slug" (.str "") (setdefault "name" (.str "") ((objFields v).getD [])))) := rfl
  rw [hg]
  apply normLesson_fixed _ (getList "items" (setdefault "slug" (.str "")
    (setdefault "name" (.str "") ((objFields v).getD []))))
  · rw [lookupKey_setKey_ne _ _ _ _ (by decide), lookupKey_setdefault_ne _ _ _ _ (by decide)]
    exact lookupKey_setdefault_self_isSome _ _ _
  · rw [lookupKey_setKey_ne _ _ _ _ (by decide)]
    exact lookupKey_setdefault_self_isSome _ _ _
  · exact lookupKey_setKey_self _ _ _

/-- An object with `name` and `slug` present whose `lessons` are already
lesson-normalized is a fixed point of the category pass. -/
theorem normCat_fixed (g : List (String × JVal)) (ys : List JVal)
    (hname : (lookupKey "name" g).isSome) (hslug : (lookupKey "slug" g).isSome)
    (hlessons : lookupKey "lessons" g = some (.arr (ys.map normLesson))) :
    normCat (.obj g) = .obj g := by
  show JVal.obj (setKey "lessons"
      (.arr ((getList "lessons" (setdefault "slug" (.str "") (setdefault "name" (.str "") g))).map normLesson))
      (setdefault "slug" (.str "") (setdefault "name" (.str "") g))) = .obj g
  rw [setdefault_of_isSome "name" (.str "") g hname, setdefault_of_isSome "slug" (.str "") g hslug]
  have hgl : getList "lessons" g = ys.map normLesson := by
    unfold getList
    rw [hlessons]
  rw [hgl, List.map_map]
  have hmap : (normLesson ∘ normLesson) = normLesson := by
    funext x; exact normLesson_idem x
  rw [hmap, setKey_of_lookup_eq "lessons" _ g hlessons]

theorem normCat_idem (v : JVal) : normCat (normCat v) = normCat v := by
  have hg : normCat v = .obj (setKey "lessons"
      (.arr ((getList "lessons" (setdefault "slug" (.str "")
        (setdefault "name" (.str "") ((objFields v).getD [])))).map normLesson))
      (setdefault "slug" (.str "") (setdefault "name" (.str "") ((objFields v).getD [])))) := rfl
  rw [hg]
  apply normCat_fixed _ (getList "lessons" (setdefault "slug" (.str "")
    (setdefault "name" (.str "") ((objFields v).getD []))))
  · rw [lookupKey_setKey_ne _ _ _ _ (by decide), lookupKey_setdefault_ne _ _ _ _ (by decide)]
    exact lookupKey_setdefault_self_isSome _ _ _
  · rw [lookupKey_setKey_ne _ _ _ _ (by decide)]
    exact lookupKey_setdefault_self_isSome _ _ _
  · exact lookupKey_setKey_self _ _ _

/-- An object whose `course` is a dict and whose `categories` are already
category-normalized is a fixed point of `_normalize_structure`. -/
theorem normalize_structure_fixed (g : List (String × JVal)) (ys : List JVal)
    (c : List (String × JVal))
    (hcourse : lookupKey "course" g = some (.obj c))
    (hcats : lookupKey "categories" g = some (.arr (ys.map normCat))) :
    normalize_structure (.obj g) = .obj g := by
  show JVal.obj (setKey "categories"
      (.arr ((getList "categories" (fixCourse g)).map normCat)) (fixCourse g)) = .obj g
  rw [fixCourse_of_obj g c hcourse]
  have hgl : getList "categories" g = ys.map normCat := by
    unfold getList
    rw [hcats]
  rw [hgl, List.map_map]
  have hmap : (normCat ∘ normCat) = normCat := by
    funext x; exact normCat_idem x
  rw [hmap, setKey_of_lookup_eq "categories" _ g hcats]

theorem normalize_structure_idem_aux (d : JVal) :
    normalize_structure (normalize_structure d) = normalize_structure d := by
  have hg : normalize_structure d = .obj (setKey "categories"
      (.arr ((getList "categories" (fixCourse ((objFields d).getD []))).map normCat))
      (fixCourse ((objFields d).getD []))) := rfl
  rw [hg]
  obtain ⟨c, hc⟩ := lookupKey_fixCourse_obj ((objFields d).getD [])
  apply normalize_structure_fixed _
    (getList "categories" (fixCourse ((objFields d).getD []))) c
  · rw [lookupKey_setKey_ne _ _ _ _ (by decide)]
    exact hc
  · exact lookupKey_setKey_self _ _ _

/-- C6: the function `_normalize_structure` is idempotent on every
input value, including malformed ones (non-dict course, non-list
`categories`/`lessons`/`items`, non-dict children, missing fields):
applying it twice yields the same document as applying it once. -/
theorem normalize_structure_idem (d : JVal) :
    normalize_structure (normalize_structure d) = normalize_structure d :=
  normalize_structure_idem_aux d

theorem arrElems_eq_some {v : JVal} {xs : List JVal} (h : arrElems v = some xs) :
    v = .arr xs := by
  cases v <;> simp [arrElems] at h <;> simp [h]

theorem objFields_eq_some {v : JVal} {fs : List (String × JVal)}
    (h : objFields v = some fs) : v = .obj fs := by
  cases v <;> simp [objFields] at h <;> simp [h]

theorem valid_category_decomp (d : JVal) (ci : Nat) (h : ValidRef d (.category ci)) :
    objFields d = some (docFields d) ∧
    lookupKey "categories" (docFields d) = some (.arr (docCats d)) ∧
    ci < (docCats d).length := by
  unfold ValidRef get_node jget jidx at h
  cases hfs : objFields d with
  | none => rw [hfs] at h; simp at h
  | some fs =>
    rw [hfs] at h
    simp only [Option.bind_eq_bind, Option.some_bind] at h
    have hdf : docFields d = fs := by simp [docFields, hfs]
    cases hcv : lookupKey "categories" fs with
    | none => rw [hcv] at h; simp at h
    | some cv =>
      rw [hcv] at h
      simp only [Option.bind_eq_bind, Option.some_bind] at h
      cases hce : arrElems cv with
      | none => rw [hce] at h; simp at h
      | some cats =>
        rw [hce] at h
        simp only [Option.bind_eq_bind, Option.some_bind] at h
        have hcv2 : cv = .arr cats := arrElems_eq_some hce
        have hdc : docCats d = cats := by
          unfold docCats getList
          rw [hdf, hcv, hcv2]
        rw [Option.isSome_iff_exists] at h
        rcases h with ⟨x, hx⟩
        refine ⟨by rw [hdf], by rw [hdf, hdc, hcv, hcv2], ?_⟩
        rw [hdc]
        exact (List.getElem?_eq_some_iff.mp hx).1

theorem valid_lesson_decomp (d : JVal) (ci li : Nat) (h : ValidRef d (.lesson ci li)) :
    objFields d = some (docFields d) ∧
    lookupKey "categories" (docFields d) = some (.arr (docCats d)) ∧
    ci < (docCats d).length ∧
    (docCats d)[ci]? = some (catAt d ci) ∧
    objFields (catAt d ci) = some (catFields d ci) ∧
    lookupKey "lessons" (catFields d ci) = some (.arr (lessonsAt d ci)) ∧
    li < (lessonsAt d ci).length := by
  unfold ValidRef get_node jget jidx at h
  cases hfs : objFields d with
  | none => rw [hfs] at h; simp at h
  | some fs =>
    rw [hfs] at h
    simp only [Option.bind_eq_bind, Option.some_bind] at h
    have hdf : docFields d = fs := by simp [docFields, hfs]
    cases hcv : lookupKey "categories" fs with
    | none => rw [hcv] at h; simp at h
    | some cv =>
      rw [hcv] at h
      simp only [Option.bind_eq_bind, Option.some_bind] at h
      cases hce : arrElems cv with
      | none => rw [hce] at h; simp at h
      | some cats =>
        rw [hce] at h
        simp only [Option.bind_eq_bind, Option.some_bind] at h
        have hcv2 : cv = .arr cats := arrElems_eq_some hce
        have hdc : docCats d = cats := by
          unfold docCats getList
          rw [hdf, hcv, hcv2]
        cases hcat : cats[ci]? with
        | none => rw [hcat] at h; simp at h
        | some cat =>
          rw [hcat] at h
          simp only [Option.bind_eq_bind, Option.some_bind] at h
          have hca : catAt d ci = cat := by
            unfold catAt
            rw [hdc, hcat]
            rfl
          cases hcfs : objFields cat with
          | none => rw [hcfs] at h; simp at h
          | some cfs =>
            rw [hcfs] at h
            simp only [Option.bind_eq_bind, Option.some_bind] at h
            have hcf : catFields d ci = cfs := by simp [catFields, hca, hcfs]
            cases hlv : lookupKey "lessons" cfs with
            | none => rw [hlv] at h; simp at h
            | some lv =>
              rw [hlv] at h
              simp only [Option.bind_eq_bind, Option.some_bind] at h
              cases hle : arrElems lv with
              | none => rw [hle] at h; simp at h
              | some ls =>
                rw [hle] at h
                simp only [Option.bind_eq_bind, Option.some_bind] at h
                have hlv2 : lv = .arr ls := arrElems_eq_some hle
                have hla : lessonsAt d ci = ls := by
                  unfold lessonsAt getList
                  rw [hcf, hlv, hlv2]
                rw [Option.isSome_iff_exists] at h
                rcases h with ⟨x, hx⟩
                refine ⟨by rw [hdf], by rw [hdf, hdc, hcv, hcv2],
                  by rw [hdc]; exact (List.getElem?_eq_some_iff.mp hcat).1,
                  by rw [hdc, hcat, hca], by rw [hca, hcfs, hcf],
                  by rw [hcf, hla, hlv, hlv2], by rw [hla]; exact (List.getElem?_eq_some_iff.mp hx).1⟩

theorem valid_item_decomp (d : JVal) (ci li ii : Nat) (h : ValidRef d (.item ci li ii)) :
    objFields d = some (docFields d) ∧
    lookupKey "categories" (docFields d) = some (.arr (docCats d)) ∧
    ci < (docCats d).length ∧
    (docCats d)[ci]? = some (catAt d ci) ∧
    objFields (catAt d ci) = some (catFields d ci) ∧
    lookupKey "lessons" (catFields d ci) = some (.arr (lessonsAt d ci)) ∧
    li < (lessonsAt d ci).length ∧
    (lessonsAt d ci)[li]? = some (lessonAt d ci li) ∧
    objFields (lessonAt d ci li) = some (lessonFields d ci li) ∧
    lookupKey "items" (lessonFields d ci li) = some (.arr (itemsAt d ci li)) ∧
    ii < (itemsAt d ci li).length := by
  unfold ValidRef get_node jget jidx at h
  cases hfs : objFields d with
  | none => rw [hfs] at h; simp at h
  | some fs =>
    rw [hfs] at h
    simp only [Option.bind_eq_bind, Option.some_bind] at h
    have hdf : docFields d = fs := by simp [docFields, hfs]
    cases hcv : lookupKey "categories" fs with
    | none => rw [hcv] at h; simp at h
    | some cv =>
      rw [hcv] at h
      simp only [Option.bind_eq_bind, Option.some_bind] at h
      cases hce : arrElems cv with
      | none => rw [hce] at h; simp at h
      | some cats =>
        rw [hce] at h
        simp only [Option.bind_eq_bind, Option.some_bind] at h
        have hcv2 : cv = .arr cats := arrElems_eq_some hce
        have hdc : docCats d = cats := by
          unfold docCats getList
          rw [hdf, hcv, hcv2]
        cases hcat : cats[ci]? with
        | none => rw [hcat] at h; simp at h
        | some cat =>
          rw [hcat] at h
          simp only [Option.bind_eq_bind, Option.some_bind] at h
          have hca : catAt d ci = cat := by
            unfold catAt
            rw [hdc, hcat]
            rfl
          cases hcfs : objFields cat with
          | none => rw [hcfs] at h; simp at h
          | some cfs =>
            rw [hcfs] at h
            simp only [Option.bind_eq_bind, Option.some_bind] at h
            have hcf : catFields d ci = cfs := by simp [catFields, hca, hcfs]
            cases hlv : lookupKey "lessons" cfs with
            | none => rw [hlv] at h; simp at h
            | some lv =>
              rw [hlv] at h
              simp only [Option.bind_eq_bind, Option.some_bind] at h
              cases hle : arrElems lv with
              | none => rw [hle] at h; simp at h
              | some ls =>
                rw [hle] at h
                simp only [Option.bind_eq_bind, Option.some_bind] at h
                have hlv2 : lv = .arr ls := arrElems_eq_some hle
                have hla : lessonsAt d ci = ls := by
                  unfold lessonsAt getList
                  rw [hcf, hlv, hlv2]
                cases hles : ls[li]? with
                | none => rw [hles] at h; simp at h
                | some lesson =>
                  rw [hles] at h
                  simp only [Option.bind_eq_bind, Option.some_bind] at h
                  have hlea : lessonAt d ci li = lesson := by
                    unfold lessonAt
                    rw [hla, hles]
                    rfl
                  cases hlfs : objFields lesson with
                  | none => rw [hlfs] at h; simp at h
                  | some lfs =>
                    rw [hlfs] at h
                    simp only [Option.bind_eq_bind, Option.some_bind] at h
                    have hlf : lessonFields d ci li = lfs := by
                      simp [lessonFields, hlea, hlfs]
                    cases hiv : lookupKey "items" lfs with
                    | none => rw [hiv] at h; simp at h
                    | some iv =>
                      rw [hiv] at h
                      simp only [Option.bind_eq_bind, Option.some_bind] at h
                      cases hie : arrElems iv with
                      | none => rw [hie] at h; simp at h
                      | some items =>
                        rw [hie] at h
                        simp only [Option.bind_eq_bind, Option.some_bind] at h
                        have hiv2 : iv = .arr items := arrElems_eq_some hie
                        have hia : itemsAt d ci li = items := by
                          unfold itemsAt getList
                          rw [hlf, hiv, hiv2]
                        rw [Option.isSome_iff_exists] at h
                        rcases h with ⟨x, hx⟩
                        exact ⟨by rw [hdf], by rw [hdf, hdc, hcv, hcv2],
                          by rw [hdc]; exact (List.getElem?_eq_some_iff.mp hcat).1,
                          by rw [hdc, hcat, hca], by rw [hca, hcfs, hcf],
                          by rw [hcf, hla, hlv, hlv2],
                          by rw [hla]; exact (List.getElem?_eq_some_iff.mp hles).1,
                          by rw [hla, hles, hlea], by rw [hlea, hlfs, hlf],
                          by rw [hlf, hia, hiv, hiv2],
                          by rw [hia]; exact (List.getElem?_eq_some_iff.mp hx).1⟩

theorem delete_node_category_eq (d : JVal) (ci : Nat) (h : ValidRef d (.category ci)) :
    delete_node d (.category ci) =
      some (JVal.obj (setKey "categories" (.arr ((docCats d).eraseIdx ci)) (docFields d)),
        if ((docCats d).eraseIdx ci).length = 0 then .course
        else .category (min ci (((docCats d).eraseIdx ci).length - 1))) := by
  obtain ⟨h1, h2, h3⟩ := valid_category_decomp d ci h
  simp [delete_node, h1, h2, arrElems, h3]

theorem delete_node_lesson_eq (d : JVal) (ci li : Nat) (h : ValidRef d (.lesson ci li)) :
    delete_node d (.lesson ci li) =
      some (JVal.obj (setKey "categories"
          (.arr ((docCats d).set ci (JVal.obj (setKey "lessons"
            (.arr ((lessonsAt d ci).eraseIdx li)) (catFields d ci)))))
          (docFields d)),
        if ((lessonsAt d ci).eraseIdx li).length = 0 then .category ci
        else .lesson ci (min li (((lessonsAt d ci).eraseIdx li).length - 1))) := by
  obtain ⟨h1, h2, h3, h4, h5, h6, h7⟩ := valid_lesson_decomp d ci li h
  unfold delete_node
  rw [h1]
  simp only [Option.bind_eq_bind, Option.some_bind]
  rw [h2]
  simp only [Option.some_bind]
  simp only [arrElems, Option.some_bind]
  rw [h4]
  simp only [Option.some_bind]
  rw [h5]
  simp only [Option.some_bind]
  rw [h6]
  simp only [Option.some_bind]
  rw [if_pos h7]
  rfl

theorem delete_node_item_eq (d : JVal) (ci li ii : Nat) (h : ValidRef d (.item ci li ii)) :
    delete_node d (.item ci li ii) =
      some (JVal.obj (setKey "categories"
          (.arr ((docCats d).set ci (JVal.obj (setKey "lessons"
            (.arr ((lessonsAt d ci).set li (JVal.obj (setKey "items"
              (.arr ((itemsAt d ci li).eraseIdx ii)) (lessonFields d ci li)))))
            (catFields d ci)))))
          (docFields d)),
        if ((itemsAt d ci li).eraseIdx ii).length = 0 then .lesson ci li
        else .item ci li (min ii (((itemsAt d ci li).eraseIdx ii).length - 1))) := by
  obtain ⟨h1, h2, h3, h4, h5, h6, h7, h8, h9, h10, h11⟩ := valid_item_decomp d ci li ii h
  unfold delete_node
  rw [h1]
  simp only [Option.bind_eq_bind, Option.some_bind]
  rw [h2]
  simp only [Option.some_bind]
  simp only [arrElems, Option.some_bind]
  rw [h4]
  simp only [Option.some_bind]
  rw [h5]
  simp only [Option.some_bind]
  rw [h6]
  simp only [Option.some_bind]
  rw [h8]
  simp only [Option.some_bind]
  rw [h9]
  simp only [Option.some_bind]
  rw [h10]
  simp only [Option.some_bind]
  rw [if_pos h11]
  rfl

/-- C2: for every reference valid in the current tree, `delete_node`
removes exactly that node (the sibling list loses exactly the entry at
the reference's index; all other parts of the document are unchanged)
and returns the successor reference: the same index when a sibling
slid into the deleted position, the new last index when the last child
was deleted, the parent when the sibling list became empty; deleting
the course root returns the input reference with the document
unchanged. -/
theorem delete_node_successor_rule (d : JVal) (r : NodeRef) (h : ValidRef d r) :
    (r = .course → delete_node d r = some (d, .course)) ∧
    (∀ ci, r = .category ci → delete_node d r = some
      (JVal.obj (setKey "categories" (.arr ((docCats d).eraseIdx ci)) (docFields d)),
       if (docCats d).length = 1 then NodeRef.course
       else NodeRef.category
         (if ci + 1 = (docCats d).length then (docCats d).length - 2 else ci))) ∧
    (∀ ci li, r = .lesson ci li → delete_node d r = some
      (JVal.obj (setKey "categories"
          (.arr ((docCats d).set ci (JVal.obj (setKey "lessons"
            (.arr ((lessonsAt d ci).eraseIdx li)) (catFields d ci)))))
          (docFields d)),
       if (lessonsAt d ci).length = 1 then NodeRef.category ci
       else NodeRef.lesson ci
         (if li + 1 = (lessonsAt d ci).length then (lessonsAt d ci).length - 2 else li))) ∧
    (∀ ci li ii, r = .item ci li ii → delete_node d r = some
      (JVal.obj (setKey "categories"
          (.arr ((docCats d).set ci (JVal.obj (setKey "lessons"
            (.arr ((lessonsAt d ci).set li (JVal.obj (setKey "items"
              (.arr ((itemsAt d ci li).eraseIdx ii)) (lessonFields d ci li)))))
            (catFields d ci)))))
          (docFields d)),
       if (itemsAt d ci li).length = 1 then NodeRef.lesson ci li
       else NodeRef.item ci li
         (if ii + 1 = (itemsAt d ci li).length then (itemsAt d ci li).length - 2 else ii))) := by
  refine ⟨?_, ?_, ?_, ?_⟩
  · intro hr
    subst hr
    rfl
  · intro ci hr
    subst hr
    obtain ⟨h1, h2, h3⟩ := valid_category_decomp d ci h
    rw [delete_node_category_eq d ci h]
    have hlen : ((docCats d).eraseIdx ci).length = (docCats d).length - 1 :=
      List.length_eraseIdx_of_lt h3
    rw [hlen]
    by_cases hone : (docCats d).length = 1
    · rw [if_pos (by omega), if_pos hone]
    · rw [if_neg (by omega), if_neg hone]
      have hidx : min ci ((docCats d).length - 1 - 1) =
          (if ci + 1 = (docCats d).length then (docCats d).length - 2 else ci) := by
        rw [Nat.min_def]
        split_ifs <;> omega
      rw [hidx]
  · intro ci li hr
    subst hr
    obtain ⟨h1, h2, h3, h4, h5, h6, h7⟩ := valid_lesson_decomp d ci li h
    rw [delete_node_lesson_eq d ci li h]
    have hlen : ((lessonsAt d ci).eraseIdx li).length = (lessonsAt d ci).length - 1 :=
      List.length_eraseIdx_of_lt h7
    rw [hlen]
    by_cases hone : (lessonsAt d ci).length = 1
    · rw [if_pos (by omega), if_pos hone]
    · rw [if_neg (by omega), if_neg hone]
      have hidx : min li ((lessonsAt d ci).length - 1 - 1) =
          (if li + 1 = (lessonsAt d ci).length then (lessonsAt d ci).length - 2 else li) := by
        rw [Nat.min_def]
        split_ifs <;> omega
      rw [hidx]
  · intro ci li ii hr
    subst hr
    obtain ⟨h1, h2, h3, h4, h5, h6, h7, h8, h9, h10, h11⟩ := valid_item_decomp d ci li ii h
    rw [delete_node_item_eq d ci li ii h]
    have hlen : ((itemsAt d ci li).eraseIdx ii).length = (itemsAt d ci li).length - 1 :=
      List.length_eraseIdx_of_lt h11
    rw [hlen]
    by_cases hone : (itemsAt d ci li).length = 1
    · rw [if_pos (by omega), if_pos hone]
    · rw [if_neg (by omega), if_neg hone]
      have hidx : min ii ((itemsAt d ci li).length - 1 - 1) =
          (if ii + 1 = (itemsAt d ci li).length then (itemsAt d ci li).length - 2 else ii) := by
        rw [Nat.min_def]
        split_ifs <;> omega
      rw [hidx]

theorem lookupKey_course_of_normalized (d : JVal) (h : normalize_structure d = d) :
    ∃ c, lookupKey "course" (docFields d) = some (.obj c) := by
  obtain ⟨c, hc⟩ := lookupKey_fixCourse_obj ((objFields d).getD [])
  refine ⟨c, ?_⟩
  rw [← h]
  show lookupKey "course"
    (setKey "categories"
      (.arr ((getList "categories" (fixCourse ((objFields d).getD []))).map normCat))
      (fixCourse ((objFields d).getD []))) = some (.obj c)
  rw [lookupKey_setKey_ne _ _ _ _ (by decide)]
  exact hc

/-- C10: on a normalized document, for every valid non-root reference
the successor reference returned by `delete_node` resolves successfully
via `get_node` on the post-deletion document — the stale-reference
error branch of `get_node` is unreachable for it. -/
theorem delete_succ_resolves_of_valid (d : JVal) (r : NodeRef)
    (hnorm : normalize_structure d = d) (hv : ValidRef d r) (hr : r ≠ .course) :
    delete_succ_resolves d r = true := by
  cases r with
  | course => exact absurd rfl hr
  | category ci =>
    obtain ⟨h1, h2, h3⟩ := valid_category_decomp d ci hv
    unfold delete_succ_resolves
    rw [delete_node_category_eq d ci hv]
    simp only [Option.map_some', Option.getD_some]
    by_cases hlen : ((docCats d).eraseIdx ci).length = 0
    · rw [if_pos hlen]
      simp only [get_node, jget, objFields, Option.bind_eq_bind, Option.some_bind]
      rw [lookupKey_setKey_ne _ _ _ _ (by decide)]
      obtain ⟨c, hc⟩ := lookupKey_course_of_normalized d hnorm
      rw [hc]
      rfl
    · rw [if_neg hlen]
      have hidx : min ci (((docCats d).eraseIdx ci).length - 1) <
          ((docCats d).eraseIdx ci).length := by
        rw [Nat.min_def]
        split_ifs <;> omega
      simp only [get_node, jget, jidx, objFields, Option.bind_eq_bind, Option.some_bind]
      rw [lookupKey_setKey_self]
      simp only [Option.some_bind, arrElems]
      rw [List.getElem?_eq_getElem hidx]
      rfl
  | lesson ci li =>
    obtain ⟨h1, h2, h3, h4, h5, h6, h7⟩ := valid_lesson_decomp d ci li hv
    unfold delete_succ_resolves
    rw [delete_node_lesson_eq d ci li hv]
    simp only [Option.map_some', Option.getD_some]
    have hlset : ((docCats d).set ci (JVal.obj (setKey "lessons"
        (.arr ((lessonsAt d ci).eraseIdx li)) (catFields d ci)))).length =
        (docCats d).length := List.length_set _ _ _
    by_cases hlen : ((lessonsAt d ci).eraseIdx li).length = 0
    · rw [if_pos hlen]
      simp only [get_node, jget, jidx, objFields, Option.bind_eq_bind, Option.some_bind]
      rw [lookupKey_setKey_self]
      simp only [Option.some_bind, arrElems]
      rw [List.getElem?_eq_getElem (by rw [hlset]; exact h3)]
      rfl
    · rw [if_neg hlen]
      have hidx : min li (((lessonsAt d ci).eraseIdx li).length - 1) <
          ((lessonsAt d ci).eraseIdx li).length := by
        rw [Nat.min_def]
        split_ifs <;> omega
      simp only [get_node, jget, jidx, objFields, Option.bind_eq_bind, Option.some_bind]
      rw [lookupKey_setKey_self]
      simp only [Option.some_bind, arrElems]
      rw [List.getElem?_set_eq_of_lt _ h3]
      simp only [Option.some_bind, objFields]
      rw [lookupKey_setKey_self]
      simp only [Option.some_bind, arrElems]
      rw [List.getElem?_eq_getElem hidx]
      rfl
  | item ci li ii =>
    obtain ⟨h1, h2, h3, h4, h5, h6, h7, h8, h9, h10, h11⟩ := valid_item_decomp d ci li ii hv
    unfold delete_succ_resolves
    rw [delete_node_item_eq d ci li ii hv]
    simp only [Option.map_some', Option.getD_some]
    by_cases hlen : ((itemsAt d ci li).eraseIdx ii).length = 0
    · rw [if_pos hlen]
      simp only [get_node, jget, jidx, objFields, Option.bind_eq_bind, Option.some_bind]
      rw [lookupKey_setKey_self]
      simp only [Option.some_bind, arrElems]
      rw [List.getElem?_set_eq_of_lt _ h3]
      simp only [Option.some_bind, objFields]
      rw [lookupKey_setKey_self]
      simp only [Option.some_bind, arrElems]
      rw [List.getElem?_set_eq_of_lt _ h7]
      rfl
    · rw [if_neg hlen]
      have hidx : min ii (((itemsAt d ci li).eraseIdx ii).length - 1) <
          ((itemsAt d ci li).eraseIdx ii).length := by
        rw [Nat.min_def]
        split_ifs <;> omega
      simp only [get_node, jget, jidx, objFields, Option.bind_eq_bind, Option.some_bind]
      rw [lookupKey_setKey_self]
      simp only [Option.some_bind, arrElems]
      rw [List.getElem?_set_eq_of_lt _ h3]
      simp only [Option.some_bind, objFields]
      rw [lookupKey_setKey_self]
      simp only [Option.some_bind, arrElems]
      rw [List.getElem?_set_eq_of_lt _ h7]
      simp only [Option.some_bind, objFields]
      rw [lookupKey_setKey_self]
      simp only [Option.some_bind, arrElems]
      rw [List.getElem?_eq_getElem hidx]
      rfl

theorem swapAt_length (xs : List JVal) (i j : Nat) :
    (swapAt xs i j).length = xs.length := by
  unfold swapAt
  simp

theorem swapAt_getD_fst (xs : List JVal) (i j : Nat) (hj : j < xs.length) :
    (swapAt xs i j).getD j .null = xs.getD i .null := by
  unfold swapAt
  rw [List.getD_eq_getElem?_getD, List.getElem?_set_eq_of_lt _ (by simpa using hj)]
  rfl

theorem swapAt_getD_snd (xs : List JVal) (i j : Nat) (hi : i < xs.length) (hij : i ≠ j) :
    (swapAt xs i j).getD i .null = xs.getD j .null := by
  unfold swapAt
  rw [List.getD_eq_getElem?_getD, List.getElem?_set_ne (Ne.symm hij),
    List.getElem?_set_eq_of_lt _ hi]
  rfl

theorem swapAt_getD_other (xs : List JVal) (i j k : Nat) (hki : k ≠ i) (hkj : k ≠ j) :
    (swapAt xs i j).getD k .null = xs.getD k .null := by
  unfold swapAt
  rw [List.getD_eq_getElem?_getD, List.getElem?_set_ne (Ne.symm hkj),
    List.getElem?_set_ne (Ne.symm hki), List.getD_eq_getElem?_getD]

/-- C9: for every valid non-root reference and direction in {-1, +1},
`move_node` swaps the node with the immediate sibling at the target
index when that index is in bounds and returns the reference with the
new index; otherwise it returns the input reference, raises no error,
and leaves the document unchanged.  The final conjunct spells out that
`swapAt` really is the exchange of the two positions, all other
positions unchanged. -/
theorem move_node_swap_rule (d : JVal) (r : NodeRef) (direction : Int)
    (hv : ValidRef d r) (hdir : direction = -1 ∨ direction = 1) :
    (∀ ci, r = .category ci →
      (∀ jn : Nat, (ci : Int) + direction = (jn : Int) → jn < (docCats d).length →
        move_node d r direction = some
          (JVal.obj (setKey "categories" (.arr (swapAt (docCats d) ci jn)) (docFields d)),
           .category jn)) ∧
      (¬ (0 ≤ (ci : Int) + direction ∧
          (ci : Int) + direction < ((docCats d).length : Int)) →
        move_node d r direction = some (d, r))) ∧
    (∀ ci li, r = .lesson ci li →
      (∀ jn : Nat, (li : Int) + direction = (jn : Int) → jn < (lessonsAt d ci).length →
        move_node d r direction = some
          (JVal.obj (setKey "categories"
            (.arr ((docCats d).set ci (JVal.obj (setKey "lessons"
              (.arr (swapAt (lessonsAt d ci) li jn)) (catFields d ci)))))
            (docFields d)),
           .lesson ci jn)) ∧
      (¬ (0 ≤ (li : Int) + direction ∧
          (li : Int) + direction < ((lessonsAt d ci).length : Int)) →
        move_node d r direction = some (d, r))) ∧
    (∀ ci li ii, r = .item ci li ii →
      (∀ jn : Nat, (ii : Int) + direction = (jn : Int) → jn < (itemsAt d ci li).length →
        move_node d r direction = some
          (JVal.obj (setKey "categories"
            (.arr ((docCats d).set ci (JVal.obj (setKey "lessons"
              (.arr ((lessonsAt d ci).set li (JVal.obj (setKey "items"
                (.arr (swapAt (itemsAt d ci li) ii jn)) (lessonFields d ci li)))))
              (catFields d ci)))))
            (docFields d)),
           .item ci li jn)) ∧
      (¬ (0 ≤ (ii : Int) + direction ∧
          (ii : Int) + direction < ((itemsAt d ci li).length : Int)) →
        move_node d r direction = some (d, r))) ∧
    (∀ (xs : List JVal) (i j : Nat), i < xs.length → j < xs.length → i ≠ j →
      (swapAt xs i j).length = xs.length ∧
      (swapAt xs i j).getD j .null = xs.getD i .null ∧
      (swapAt xs i j).getD i .null = xs.getD j .null ∧
      (∀ k, k ≠ i → k ≠ j → (swapAt xs i j).getD k .null = xs.getD k .null)) := by
  refine ⟨?_, ?_, ?_, ?_⟩
  · intro ci hr
    subst hr
    obtain ⟨h1, h2, h3⟩ := valid_category_decomp d ci hv
    constructor
    · intro jn hjn hlt
      unfold move_node
      rw [h1]
      simp only [Option.bind_eq_bind, Option.some_bind]
      rw [h2]
      simp only [Option.some_bind, arrElems]
      have hcond : 0 ≤ (ci : Int) + direction ∧
          (ci : Int) + direction < ((docCats d).length : Int) := by
        refine ⟨by rw [hjn]; exact Int.natCast_nonneg jn, by rw [hjn]; exact_mod_cast hlt⟩
      rw [if_pos hcond]
      have htn : ((ci : Int) + direction).toNat = jn := by
        rw [hjn]
        exact Int.toNat_natCast jn
      rw [htn]
      rfl
    · intro hncond
      unfold move_node
      rw [h1]
      simp only [Option.bind_eq_bind, Option.some_bind]
      rw [h2]
      simp only [Option.some_bind, arrElems]
      rw [if_neg hncond]
      rfl
  · intro ci li hr
    subst hr
    obtain ⟨h1, h2, h3, h4, h5, h6, h7⟩ := valid_lesson_decomp d ci li hv
    constructor
    · intro jn hjn hlt
      unfold move_node
      rw [h1]
      simp only [Option.bind_eq_bind, Option.some_bind]
      rw [h2]
      simp only [Option.some_bind, arrElems]
      rw [h4]
      simp only [Option.some_bind]
      rw [h5]
      simp only [Option.some_bind]
      rw [h6]
      simp only [Option.some_bind]
      have hcond : 0 ≤ (li : Int) + direction ∧
          (li : Int) + direction < ((lessonsAt d ci).length : Int) := by
        refine ⟨by rw [hjn]; exact Int.natCast_nonneg jn, by rw [hjn]; exact_mod_cast hlt⟩
      rw [if_pos hcond]
      have htn : ((li : Int) + direction).toNat = jn := by
        rw [hjn]
        exact Int.toNat_natCast jn
      rw [htn]
      rfl
    · intro hncond
      unfold move_node
      rw [h1]
      simp only [Option.bind_eq_bind, Option.some_bind]
      rw [h2]
      simp only [Option.some_bind, arrElems]
      rw [h4]
      simp only [Option.some_bind]
      rw [h5]
      simp only [Option.some_bind]
      rw [h6]
      simp only [Option.some_bind]
      rw [if_neg hncond]
      rfl
  · intro ci li ii hr
    subst hr
    obtain ⟨h1, h2, h3, h4, h5, h6, h7, h8, h9, h10, h11⟩ := valid_item_decomp d ci li ii hv
    constructor
    · intro jn hjn hlt
      unfold move_node
      rw [h1]
      simp only [Option.bind_eq_bind, Option.some_bind]
      rw [h2]
      simp only [Option.some_bind, arrElems]
      rw [h4]
      simp only [Option.some_bind]
      rw [h5]
      simp only [Option.some_bind]
      rw [h6]
      simp only [Option.some_bind]
      rw [h8]
      simp only [Option.some_bind]
      rw [h9]
      simp only [Option.some_bind]
      rw [h10]
      simp only [Option.some_bind]
      have hcond : 0 ≤ (ii : Int) + direction ∧
          (ii : Int) + direction < ((itemsAt d ci li).length : Int) := by
        refine ⟨by rw [hjn]; exact Int.natCast_nonneg jn, by rw [hjn]; exact_mod_cast hlt⟩
      rw [if_pos hcond]
      have htn : ((ii : Int) + direction).toNat = jn := by
        rw [hjn]
        exact Int.toNat_natCast jn
      rw [htn]
      rfl
    · intro hncond
      unfold move_node
      rw [h1]
      simp only [Option.bind_eq_bind, Option.some_bind]
      rw [h2]
      simp only [Option.some_bind, arrElems]
      rw [h4]
      simp only [Option.some_bind]
      rw [h5]
      simp only [Option.some_bind]
      rw [h6]
      simp only [Option.some_bind]
      rw [h8]
      simp only [Option.some_bind]
      rw [h9]
      simp only [Option.some_bind]
      rw [h10]
      simp only [Option.some_bind]
      rw [if_neg hncond]
      rfl
  · intro xs i j hi hj hij
    exact ⟨swapAt_length xs i j, swapAt_getD_fst xs i j hj,
      swapAt_getD_snd xs i j hi hij,
      fun k hki hkj => swapAt_getD_other xs i j k hki hkj⟩

/-- Witness for C2: deleting the middle of three items returns a
reference to the same index, now occupied by the next item. -/
theorem delete_node_successor_rule_witness :
    ValidRef
      (JVal.obj [("course", .obj []), ("categories", .arr [.obj [("lessons", .arr
        [.obj [("items", .arr [.obj [("ja", .str "a")], .obj [("ja", .str "b")],
          .obj [("ja", .str "c")]])]])]])])
      (.item 0 0 1) ∧
    delete_node
      (JVal.obj [("course", .obj []), ("categories", .arr [.obj [("lessons", .arr
        [.obj [("items", .arr [.obj [("ja", .str "a")], .obj [("ja", .str "b")],
          .obj [("ja", .str "c")]])]])]])])
      (.item 0 0 1) = some
      (JVal.obj [("course", .obj []), ("categories", .arr [.obj [("lessons", .arr
        [.obj [("items", .arr [.obj [("ja", .str "a")], .obj [("ja", .str "c")]])]])]])],
       .item 0 0 1) := by
  refine ⟨by decide, ?_⟩
  have h := (delete_node_successor_rule
    (JVal.obj [("course", .obj []), ("categories", .arr [.obj [("lessons", .arr
      [.obj [("items", .arr [.obj [("ja", .str "a")], .obj [("ja", .str "b")],
        .obj [("ja", .str "c")]])]])]])])
    (.item 0 0 1) (by decide)).2.2.2 0 0 1 rfl
  exact h.trans (by rfl)

/-- Witness for C9: moving the middle of three items up swaps it with
its predecessor; moving the first item up is a silent no-op. -/
theorem move_node_swap_rule_witness :
    ValidRef
      (JVal.obj [("categories", .arr [.obj [("lessons", .arr
        [.obj [("items", .arr [.obj [("ja", .str "a")], .obj [("ja", .str "b")],
          .obj [("ja", .str "c")]])]])]])])
      (.item 0 0 1) ∧
    ((-1 : Int) = -1 ∨ (-1 : Int) = 1) ∧
    move_node
      (JVal.obj [("categories", .arr [.obj [("lessons", .arr
        [.obj [("items", .arr [.obj [("ja", .str "a")], .obj [("ja", .str "b")],
          .obj [("ja", .str "c")]])]])]])])
      (.item 0 0 1) (-1) = some
      (JVal.obj [("categories", .arr [.obj [("lessons", .arr
        [.obj [("items", .arr [.obj [("ja", .str "b")], .obj [("ja", .str "a")],
          .obj [("ja", .str "c")]])]])]])],
       .item 0 0 0) := by
  refine ⟨by decide, Or.inl rfl, ?_⟩
  have h := ((move_node_swap_rule
    (JVal.obj [("categories", .arr [.obj [("lessons", .arr
      [.obj [("items", .arr [.obj [("ja", .str "a")], .obj [("ja", .str "b")],
        .obj [("ja", .str "c")]])]])]])])
    (.item 0 0 1) (-1) (by decide) (Or.inl rfl)).2.2.1 0 0 1 rfl).1 0 (by decide) (by decide)
  exact h.trans (by rfl)

/-- Witness for C10: deleting the only lesson of a category in a
normalized document yields a successor reference (the category) that
resolves. -/
theorem delete_succ_resolves_of_valid_witness :
    normalize_structure
      (JVal.obj [("categories", .arr [.obj [("lessons", .arr
        [.obj [("name", .str ""), ("slug", .str ""), ("items", .arr [])]]),
        ("name", .str ""), ("slug", .str "")]]), ("course", .obj [])]) =
      (JVal.obj [("categories", .arr [.obj [("lessons", .arr
        [.obj [("name", .str ""), ("slug", .str ""), ("items", .arr [])]]),
        ("name", .str ""), ("slug", .str "")]]), ("course", .obj [])]) ∧
    ValidRef
      (JVal.obj [("categories", .arr [.obj [("lessons", .arr
        [.obj [("name", .str ""), ("slug", .str ""), ("items", .arr [])]]),
        ("name", .str ""), ("slug", .str "")]]), ("course", .obj [])])
      (.lesson 0 0) ∧
    (NodeRef.lesson 0 0 ≠ .course) ∧
    delete_succ_resolves
      (JVal.obj [("categories", .arr [.obj [("lessons", .arr
        [.obj [("name", .str ""), ("slug", .str ""), ("items", .arr [])]]),
        ("name", .str ""), ("slug", .str "")]]), ("course", .obj [])])
      (.lesson 0 0) = true := by
  refine ⟨by rfl, by decide, by decide, ?_⟩
  exact delete_succ_resolves_of_valid _ _ (by rfl) (by decide) (by decide)

/-- Counterexample to C4 as stated: on an item whose `image` field is
present but an empty string, `_normalize_structure` keeps the empty
string (`setdefault` only fills missing keys), so after normalization
not every item's image is non-empty. -/
theorem normalize_image_nonempty_cex :
    doc_items_image_nonempty (normalize_structure
      (JVal.obj [("categories", .arr [.obj [("lessons", .arr
        [.obj [("items", .arr [.obj [("image", .str "")]])]])]])])) = false := by
  rfl

theorem lookupKey_setdefault_self_of_none (k : String) (v : JVal) (l : List (String × JVal))
    (hl : lookupKey k l = none) : lookupKey k (setdefault k v l) = some v := by
  unfold setdefault
  rw [hl]
  induction l with
  | nil => simp [lookupKey]
  | cons hd tl ih =>
    obtain ⟨k', v'⟩ := hd
    by_cases h : k' = k
    · simp [lookupKey, h] at hl
    · simp [lookupKey, h] at hl ⊢
      exact ih hl

/-- C4 (amended): `add_item` called with a `None`, blank or
whitespace-only image stores the fixed placeholder path; after
`_normalize_structure` every item carries an `image` field, and a
missing `image` field is filled with the placeholder path.  (As the
counterexample shows, an `image` that is present but empty is kept
empty by normalization, so the original "non-empty after normalize"
reading does not hold.) -/
theorem add_item_image_default (d : JVal) (ci li : Nat) (ja it : String)
    (image : Option String)
    (hv : ValidRef d (.lesson ci li))
    (hitems : lookupKey "items" (lessonFields d ci li) = some (.arr (itemsAt d ci li)))
    (himg : py_strip (image.getD "") = "") :
    add_item d ci li ja it image = some
      (JVal.obj (setKey "categories"
        (.arr ((docCats d).set ci (JVal.obj (setKey "lessons"
          (.arr ((lessonsAt d ci).set li (JVal.obj (setKey "items"
            (.arr ((itemsAt d ci li) ++ [JVal.obj [("ja", .str ja), ("it", .str it),
              ("image", .str DEFAULT_ITEM_IMAGE)]]))
            (lessonFields d ci li)))))
          (catFields d ci)))))
        (docFields d)),
       .item ci li (itemsAt d ci li).length) ∧
    (∀ e : JVal, ∀ x ∈ doc_items (normalize_structure e),
      (lookupKey "image" ((objFields x).getD [])).isSome) ∧
    (∀ v : JVal, lookupKey "image" ((objFields v).getD []) = none →
      lookupKey "image" ((objFields (normItem v)).getD []) =
        some (.str DEFAULT_ITEM_IMAGE)) := by
  refine ⟨?_, ?_, ?_⟩
  · obtain ⟨h1, h2, h3, h4, h5, h6, h7⟩ := valid_lesson_decomp d ci li hv
    unfold add_item
    rw [h1]
    simp only [Option.bind_eq_bind, Option.some_bind]
    rw [h2]
    simp only [Option.some_bind, arrElems]
    rw [h4]
    simp only [Option.some_bind]
    rw [h5]
    simp only [Option.some_bind]
    rw [h6]
    simp only [Option.some_bind, arrElems]
    rw [List.getElem?_eq_getElem h7]
    simp only [Option.some_bind]
    have h8 : (lessonsAt d ci)[li] = lessonAt d ci li := by
      unfold lessonAt
      rw [List.getElem?_eq_getElem h7]
      rfl
    rw [h8]
    show (objFields (lessonAt d ci li)).bind _ = _
    have h9 : objFields (lessonAt d ci li) = some (lessonFields d ci li) := by
      cases hov : objFields (lessonAt d ci li) with
      | none =>
        exfalso
        unfold lessonFields at hitems
        rw [hov] at hitems
        simp only [Option.getD_none] at hitems
        simp [lookupKey] at hitems
      | some fs =>
        unfold lessonFields
        rw [hov]
        rfl

    rw [h9]
    simp only [Option.some_bind]
    rw [hitems]
    simp only [Option.some_bind, arrElems]
    rw [if_pos himg]
    rfl
  · intro e x hx
    unfold doc_items at hx
    have hdc : docCats (normalize_structure e) =
        List.map normCat (getList "categories" (fixCourse ((objFields e).getD []))) := by
      show getList "categories" (setKey "categories" _ _) = _
      exact getList_setKey_self _ _ _
    rw [hdc, List.mem_flatMap] at hx
    obtain ⟨cat, hcat, hx⟩ := hx
    rw [List.mem_map] at hcat
    obtain ⟨c0, _, hc0⟩ := hcat
    subst hc0
    have hls : getList "lessons" ((objFields (normCat c0)).getD []) =
        List.map normLesson (getList "lessons" (setdefault "slug" (.str "")
          (setdefault "name" (.str "") ((objFields c0).getD [])))) := by
      show getList "lessons" (setKey "lessons" _ _) = _
      exact getList_setKey_self _ _ _
    rw [hls, List.mem_flatMap] at hx
    obtain ⟨lesson, hlesson, hx⟩ := hx
    rw [List.mem_map] at hlesson
    obtain ⟨l0, _, hl0⟩ := hlesson
    subst hl0
    have hit : getList "items" ((objFields (normLesson l0)).getD []) =
        List.map normItem (getList "items" (setdefault "slug" (.str "")
          (setdefault "name" (.str "") ((objFields l0).getD [])))) := by
      show getList "items" (setKey "items" _ _) = _
      exact getList_setKey_self _ _ _
    rw [hit, List.mem_map] at hx
    obtain ⟨y, _, hy⟩ := hx
    subst hy
    show (lookupKey "image" ((objFields (normItem y)).getD [])).isSome
    exact lookupKey_setdefault_self_isSome _ _ _
  · intro v hnone
    show lookupKey "image" (setdefault "image" (.str DEFAULT_ITEM_IMAGE)
      (setdefault "it" (.str "") (setdefault "ja" (.str "") ((objFields v).getD [])))) = _
    apply lookupKey_setdefault_self_of_none
    rw [lookupKey_setdefault_ne _ _ _ _ (by decide), lookupKey_setdefault_ne _ _ _ _ (by decide)]
    exact hnone

/-- Witness for C4 (amended): adding an item with a whitespace-only
image to a one-lesson document stores the placeholder path. -/
theorem add_item_image_default_witness :
    ValidRef (JVal.obj [("categories", .arr [.obj [("lessons", .arr
        [.obj [("items", .arr [])]])]])]) (.lesson 0 0) ∧
    lookupKey "items" (lessonFields (JVal.obj [("categories", .arr [.obj [("lessons", .arr
        [.obj [("items", .arr [])]])]])]) 0 0) =
      some (.arr (itemsAt (JVal.obj [("categories", .arr [.obj [("lessons", .arr
        [.obj [("items", .arr [])]])]])]) 0 0)) ∧
    (py_strip ((some "  " : Option String).getD "") = "") ∧
    add_item (JVal.obj [("categories", .arr [.obj [("lessons", .arr
        [.obj [("items", .arr [])]])]])]) 0 0 "hi" "ciao" (some "  ") =
      some (JVal.obj [("categories", .arr [.obj [("lessons", .arr
        [.obj [("items", .arr [.obj [("ja", .str "hi"), ("it", .str "ciao"),
          ("image", .str DEFAULT_ITEM_IMAGE)]])]])]])],
       .item 0 0 0) := by
  refine ⟨by decide, by rfl, by decide, ?_⟩
  have h := (add_item_image_default (JVal.obj [("categories", .arr [.obj [("lessons", .arr
      [.obj [("items", .arr [])]])]])]) 0 0 "hi" "ciao" (some "  ")
      (by decide) (by rfl) (by decide)).1
  exact h.trans (by rfl)

/-- C8: `_is_dirty` is exactly the disjunction "version differs from
last saved, or a save is in flight, or a save is queued"; immediately
after a successful save with no intervening mutation and nothing
queued it is false, and any subsequent mutation (field or structural,
each of which increments the version) makes it true. -/
theorem is_dirty_spec (a : App) (e : Option String) (f : JVal → JVal) :
    (is_dirty a = true ↔
      (a.model_version ≠ a.last_saved_version ∨ a.save_in_progress = true ∨
        a.save_pending = true)) ∧
    (a.save_in_progress = false → a.save_pending = false →
      is_dirty (on_save_done true e (start_save_async a)) = false) ∧
    (a.save_in_progress = false → a.save_pending = false →
      is_dirty (field_edit f (on_save_done true e (start_save_async a))) = true) ∧
    (a.save_in_progress = false → a.save_pending = false →
      is_dirty (structural_command f (on_save_done true e (start_save_async a))) = true) := by
  refine ⟨?_, ?_, ?_, ?_⟩
  · simp [is_dirty, Bool.or_eq_true, bne_iff_ne, or_assoc]
  · intro h1 h2
    simp [start_save_async, on_save_done, is_dirty, h1, h2]
  · intro h1 h2
    by_cases hg : a.edit_group_active
    all_goals simp [start_save_async, on_save_done, is_dirty, h1, h2, hg, field_edit,
      begin_coalesced_edit, push_undo_snapshot, apply_edit, touch_model]
  · intro h1 h2
    simp [start_save_async, on_save_done, is_dirty, h1, h2, structural_command,
      push_undo_snapshot, apply_edit, touch_model, end_coalesced_edit]

/-- Witness for C8 at the freshly initialized editor state. -/
theorem is_dirty_spec_witness :
    ((init_app (.obj [])).save_in_progress = false) ∧
    ((init_app (.obj [])).save_pending = false) ∧
    is_dirty (on_save_done true none (start_save_async (init_app (.obj [])))) = false ∧
    is_dirty (field_edit id
      (on_save_done true none (start_save_async (init_app (.obj []))))) = true := by
  have h := is_dirty_spec (init_app (.obj [])) none id
  exact ⟨rfl, rfl, h.2.1 rfl rfl, h.2.2.1 rfl rfl⟩

/-- Counterexample to C7 as stated: when a save was queued during the
in-flight write, a failed completion does NOT leave a non-empty stored
error — `_on_save_done` records the message but then immediately calls
`_start_save_async`, which resets `_save_last_error` to `None`. -/
theorem on_save_done_error_cex :
    (start_save_async (start_save_async (init_app (.obj [])))).save_pending = true ∧
    (on_save_done false (some "disk full")
      (start_save_async (start_save_async (init_app (.obj []))))).save_last_error =
      none := ⟨rfl, rfl⟩

/-- C7 (amended): on success, the version captured with the in-flight
snapshot becomes `last_saved_version` and the stored error is cleared;
on failure, `last_saved_version` is unchanged, and — provided no
follow-up save was queued — a non-empty error message is recorded and
the document stays dirty; when a follow-up was queued, the handler
immediately starts it, which resets the stored error (and keeps the
document dirty through the in-flight flag). -/
theorem on_save_done_spec (a : App) (e : Option String) (v : Nat) :
    (a.inflight_version = some v →
      (on_save_done true e a).last_saved_version = v ∧
      (on_save_done true e a).save_last_error = none) ∧
    ((on_save_done false e a).last_saved_version = a.last_saved_version) ∧
    (a.save_pending = false →
      ((on_save_done false e a).save_last_error.getD "") ≠ "" ∧
      (a.model_version ≠ a.last_saved_version →
        is_dirty (on_save_done false e a) = true)) ∧
    (a.save_pending = true →
      (on_save_done false e a).save_last_error = none ∧
      (on_save_done false e a).save_in_progress = true ∧
      is_dirty (on_save_done false e a) = true) := by
  refine ⟨?_, ?_, ?_, ?_⟩
  · intro hv
    by_cases hp : a.save_pending
    all_goals simp [on_save_done, start_save_async, hv, hp]
  · by_cases hp : a.save_pending
    all_goals simp [on_save_done, start_save_async, hp]
  · intro hp
    constructor
    · cases e with
      | none => simp [on_save_done, hp]
      | some s =>
        by_cases hs : s = ""
        · simp [on_save_done, hp, hs]
        · simp [on_save_done, hp, hs]
    · intro hne
      simp [on_save_done, is_dirty, hp, bne_iff_ne, hne]
  · intro hp
    simp [on_save_done, start_save_async, is_dirty, hp]

/-- Witness for C7 (amended) at a concrete in-flight save from the
initial state. -/
theorem on_save_done_spec_witness :
    ((start_save_async (init_app (.obj []))).inflight_version = some 0) ∧
    (on_save_done true none (start_save_async (init_app (.obj [])))).last_saved_version
      = 0 ∧
    ((start_save_async (init_app (.obj []))).save_pending = false) ∧
    ((on_save_done false (some "boom")
      (start_save_async (init_app (.obj [])))).save_last_error.getD "") ≠ "" := by
  refine ⟨rfl, ?_, rfl, ?_⟩
  · exact ((on_save_done_spec (start_save_async (init_app (.obj []))) none 0).1 rfl).1
  · exact ((on_save_done_spec (start_save_async (init_app (.obj [])))
      (some "boom") 0).2.2.1 rfl).1

theorem step_mid_preserves (a : App) (o : Op) (hmid : is_mid o = true)
    (hprog : a.save_in_progress = true) :
    (step a o).save_in_progress = true ∧
    (step a o).writes = a.writes ∧
    (step a o).save_pending = (a.save_pending || is_request o) := by
  cases o with
  | field_op f =>
    by_cases hg : a.edit_group_active <;>
      simp [step, field_edit, begin_coalesced_edit, push_undo_snapshot, apply_edit,
        touch_model, is_request, hg, hprog]
  | structural_op f =>
    simp [step, structural_command, push_undo_snapshot, apply_edit, touch_model,
      end_coalesced_edit, is_request, hprog]
  | timer_end =>
    simp [step, end_coalesced_edit, is_request, hprog]
  | undo_op =>
    cases hl : a.undo_stack.getLast? <;>
      simp [step, do_undo, end_coalesced_edit, hl, is_request, hprog]
  | redo_op =>
    cases hl : a.redo_stack.getLast? <;>
      simp [step, do_redo, end_coalesced_edit, hl, is_request, hprog]
  | request_save =>
    simp [step, start_save_async, is_request, hprog]
  | complete ok err =>
    simp [is_mid] at hmid

theorem run_mid_preserves (ops : List Op) (a : App)
    (hmid : ∀ o ∈ ops, is_mid o = true) (hprog : a.save_in_progress = true) :
    (run a ops).save_in_progress = true ∧
    (run a ops).writes = a.writes ∧
    (run a ops).save_pending = (a.save_pending || ops.any is_request) := by
  induction ops generalizing a with
  | nil => simp [run, hprog]
  | cons o rest ih =>
    have hmo : is_mid o = true := hmid o (List.mem_cons_self o rest)
    obtain ⟨s1, s2, s3⟩ := step_mid_preserves a o hmo hprog
    have hrest : ∀ o' ∈ rest, is_mid o' = true :=
      fun o' ho' => hmid o' (List.mem_cons_of_mem o ho')
    obtain ⟨r1, r2, r3⟩ := ih (step a o) hrest s1
    refine ⟨?_, ?_, ?_⟩
    · show (run (step a o) rest).save_in_progress = true
      exact r1
    · show (run (step a o) rest).writes = a.writes
      rw [r2, s2]
    · show (run (step a o) rest).save_pending = _
      rw [r3, s3]
      simp [List.any_cons, Bool.or_assoc]

theorem on_save_done_pending (ok : Bool) (e : Option String) (a : App)
    (hp : a.save_pending = true) :
    (on_save_done ok e a).writes = a.writes ++ [(a.data, a.model_version)] ∧
    (on_save_done ok e a).save_in_progress = true ∧
    (on_save_done ok e a).save_pending = false := by
  cases ok <;> simp [on_save_done, start_save_async, hp]

/-- C1: with one save in flight, any number of further save requests
(interleaved with arbitrary edits, undo/redo, and timer firings) start
no new write and only set the pending flag; when the in-flight write
completes, exactly one follow-up write starts, and it serializes the
document state current at that moment — never the stale in-flight
snapshot.  N requests during one in-flight write therefore cost
exactly 2 writes in total. -/
theorem single_flight_saves (a0 : App) (ops : List Op) (ok : Bool) (e : Option String)
    (h0 : a0.save_in_progress = false)
    (hmid : ∀ o ∈ ops, is_mid o = true)
    (hreq : 0 < ops.countP (fun o => is_request o)) :
    (start_save_async a0).writes = a0.writes ++ [(a0.data, a0.model_version)] ∧
    (run (start_save_async a0) ops).writes =
      a0.writes ++ [(a0.data, a0.model_version)] ∧
    (run (start_save_async a0) ops).save_pending = true ∧
    (run (start_save_async a0) ops).save_in_progress = true ∧
    (on_save_done ok e (run (start_save_async a0) ops)).writes =
      a0.writes ++ [(a0.data, a0.model_version),
        ((run (start_save_async a0) ops).data,
         (run (start_save_async a0) ops).model_version)] ∧
    (on_save_done ok e (run (start_save_async a0) ops)).save_in_progress = true ∧
    (on_save_done ok e (run (start_save_async a0) ops)).save_pending = false := by
  have hw1 : (start_save_async a0).writes = a0.writes ++ [(a0.data, a0.model_version)] := by
    simp [start_save_async, h0]
  have hp1 : (start_save_async a0).save_in_progress = true := by
    simp [start_save_async, h0]
  obtain ⟨r1, r2, r3⟩ := run_mid_preserves ops (start_save_async a0) hmid hp1
  have hany : ops.any is_request = true := by
    rw [List.any_eq_true]
    obtain ⟨o, ho, hpo⟩ := List.countP_pos.mp hreq
    exact ⟨o, ho, hpo⟩
  have hpend : (run (start_save_async a0) ops).save_pending = true := by
    rw [r3, hany, Bool.or_true]
  obtain ⟨q1, q2, q3⟩ := on_save_done_pending ok e _ hpend
  refine ⟨hw1, by rw [r2, hw1], hpend, r1, ?_, q2, q3⟩
  rw [q1, r2, hw1]
  simp

/-- Witness for C1: one request issued while a save is in flight yields
exactly two writes once the in-flight save completes. -/
theorem single_flight_saves_witness :
    ((init_app (.obj [])).save_in_progress = false) ∧
    (∀ o ∈ [Op.request_save], is_mid o = true) ∧
    (0 < ([Op.request_save].countP (fun o => is_request o))) ∧
    (run (start_save_async (init_app (.obj []))) [Op.request_save]).save_pending = true ∧
    (on_save_done true none
      (run (start_save_async (init_app (.obj []))) [Op.request_save])).writes.length = 2 := by
  have h := single_flight_saves (init_app (.obj [])) [Op.request_save] true none
    rfl (by intro o ho; simp at ho; rw [ho]; rfl) (by decide)
  refine ⟨rfl, by intro o ho; simp at ho; rw [ho]; rfl, by decide, h.2.2.1, ?_⟩
  rw [h.2.2.2.2.1]
  rfl

theorem push_undo_snapshot_stacks (a : App)
    (h : a.undo_stack.length + a.redo_stack.length ≤ a.undo_limit) :
    (push_undo_snapshot a).undo_stack.length +
      (push_undo_snapshot a).redo_stack.length ≤ a.undo_limit := by
  simp only [push_undo_snapshot]
  split_ifs with hc
  · simp only [List.length_tail, List.length_append, List.length_cons, List.length_nil]
    omega
  · simp only [List.length_append, List.length_cons, List.length_nil] at hc ⊢
    omega

theorem step_stacks_inv (a : App) (o : Op)
    (h : a.undo_stack.length + a.redo_stack.length ≤ a.undo_limit) :
    (step a o).undo_stack.length + (step a o).redo_stack.length ≤ (step a o).undo_limit ∧
    (step a o).undo_limit = a.undo_limit := by
  cases o with
  | field_op f =>
    by_cases hg : a.edit_group_active
    · refine ⟨?_, ?_⟩
      · simpa [step, field_edit, begin_coalesced_edit, hg, apply_edit, touch_model] using h
      · simp [step, field_edit, begin_coalesced_edit, hg, apply_edit, touch_model]
    · have e1 : (step a (.field_op f)).undo_stack = (push_undo_snapshot a).undo_stack := by
        simp [step, field_edit, begin_coalesced_edit, hg, apply_edit, touch_model]
      have e2 : (step a (.field_op f)).redo_stack = (push_undo_snapshot a).redo_stack := by
        simp [step, field_edit, begin_coalesced_edit, hg, apply_edit, touch_model]
      have e3 : (step a (.field_op f)).undo_limit = a.undo_limit := by
        simp [step, field_edit, begin_coalesced_edit, hg, apply_edit, touch_model,
          push_undo_snapshot]
      refine ⟨?_, e3⟩
      rw [e1, e2, e3]
      exact push_undo_snapshot_stacks a h
  | structural_op f =>
    have e1 : (step a (.structural_op f)).undo_stack = (push_undo_snapshot a).undo_stack := by
      simp [step, structural_command, push_undo_snapshot, apply_edit, touch_model,
        end_coalesced_edit]
    have e2 : (step a (.structural_op f)).redo_stack = (push_undo_snapshot a).redo_stack := by
      simp [step, structural_command, push_undo_snapshot, apply_edit, touch_model,
        end_coalesced_edit]
    have e3 : (step a (.structural_op f)).undo_limit = a.undo_limit := by
      simp [step, structural_command, push_undo_snapshot, apply_edit, touch_model,
        end_coalesced_edit]
    refine ⟨?_, e3⟩
    rw [e1, e2, e3]
    exact push_undo_snapshot_stacks a h
  | timer_end =>
    refine ⟨?_, ?_⟩
    · simpa [step, end_coalesced_edit] using h
    · simp [step, end_coalesced_edit]
  | undo_op =>
    cases hl : a.undo_stack.getLast? with
    | none =>
      refine ⟨?_, ?_⟩
      · simpa [step, do_undo, hl] using h
      · simp [step, do_undo, hl]
    | some prev =>
      have hne : a.undo_stack ≠ [] := by
        intro hnil
        rw [hnil] at hl
        simp at hl
      have hpos : 1 ≤ a.undo_stack.length := List.length_pos.mpr hne
      refine ⟨?_, ?_⟩
      · simp only [step, do_undo, hl, end_coalesced_edit, List.length_dropLast,
          List.length_append, List.length_cons, List.length_nil]
        omega
      · simp [step, do_undo, hl, end_coalesced_edit]
  | redo_op =>
    cases hl : a.redo_stack.getLast? with
    | none =>
      refine ⟨?_, ?_⟩
      · simpa [step, do_redo, hl] using h
      · simp [step, do_redo, hl]
    | some nxt =>
      have hne : a.redo_stack ≠ [] := by
        intro hnil
        rw [hnil] at hl
        simp at hl
      have hpos : 1 ≤ a.redo_stack.length := List.length_pos.mpr hne
      refine ⟨?_, ?_⟩
      · simp only [step, do_redo, hl, end_coalesced_edit]
        split_ifs with hc
        · simp only [List.length_tail, List.length_append, List.length_cons,
            List.length_nil, List.length_dropLast]
          omega
        · simp only [List.length_append, List.length_cons, List.length_nil,
            List.length_dropLast] at hc ⊢
          omega
      · simp [step, do_redo, hl, end_coalesced_edit]
  | request_save =>
    by_cases hp : a.save_in_progress
    all_goals refine ⟨?_, ?_⟩
    · simpa [step, start_save_async, hp] using h
    · simp [step, start_save_async, hp]
    · simpa [step, start_save_async, hp] using h
    · simp [step, start_save_async, hp]
  | complete ok err =>
    cases ok
    all_goals by_cases hp : a.save_pending
    all_goals refine ⟨?_, ?_⟩
    · simpa [step, on_save_done, start_save_async, hp] using h
    · simp [step, on_save_done, start_save_async, hp]
    · simpa [step, on_save_done, start_save_async, hp] using h
    · simp [step, on_save_done, start_save_async, hp]
    · simpa [step, on_save_done, start_save_async, hp] using h
    · simp [step, on_save_done, start_save_async, hp]
    · simpa [step, on_save_done, start_save_async, hp] using h
    · simp [step, on_save_done, start_save_async, hp]

theorem run_stacks_inv (ops : List Op) (a : App)
    (h : a.undo_stack.length + a.redo_stack.length ≤ a.undo_limit) :
    (run a ops).undo_stack.length + (run a ops).redo_stack.length ≤
      (run a ops).undo_limit ∧
    (run a ops).undo_limit = a.undo_limit := by
  induction ops generalizing a with
  | nil => exact ⟨h, rfl⟩
  | cons o rest ih =>
    obtain ⟨s1, s2⟩ := step_stacks_inv a o h
    have hrun := ih (step a o) (s2 ▸ s1)
    refine ⟨?_, ?_⟩
    · show (run (step a o) rest).undo_stack.length +
        (run (step a o) rest).redo_stack.length ≤ (run (step a o) rest).undo_limit
      exact hrun.1
    · show (run (step a o) rest).undo_limit = a.undo_limit
      rw [hrun.2, s2]

/-- C5: starting from the initial editor state (empty stacks, cap 100),
after any sequence of operations neither history stack exceeds 100
entries; and pushing a snapshot onto a full undo stack evicts exactly
the oldest entry (`pop(0)`), keeping the stack at the cap. -/
theorem history_stacks_bounded (a0 : App) (ops : List Op)
    (hu : a0.undo_stack = []) (hr : a0.redo_stack = []) (hcap : a0.undo_limit = 100) :
    ((run a0 ops).undo_stack.length ≤ 100 ∧ (run a0 ops).redo_stack.length ≤ 100) ∧
    (∀ a : App, a.undo_stack.length = a.undo_limit → 1 ≤ a.undo_limit →
      (push_undo_snapshot a).undo_stack = a.undo_stack.tail ++ [a.data] ∧
      (push_undo_snapshot a).undo_stack.length = a.undo_limit) := by
  constructor
  · have h0 : a0.undo_stack.length + a0.redo_stack.length ≤ a0.undo_limit := by
      rw [hu, hr, hcap]
      simp
    obtain ⟨hinv, hlim⟩ := run_stacks_inv ops a0 h0
    rw [hlim, hcap] at hinv
    omega
  · intro a hfull hpos
    have hgt : (a.undo_stack ++ [a.data]).length > a.undo_limit := by
      simp only [List.length_append, List.length_cons, List.length_nil]
      omega
    have hne : a.undo_stack ≠ [] := by
      intro hnil
      rw [hnil] at hfull
      simp at hfull
      omega
    constructor
    · simp only [push_undo_snapshot, if_pos hgt]
      cases hcons : a.undo_stack with
      | nil => exact absurd hcons hne
      | cons x xs => simp
    · simp only [push_undo_snapshot, if_pos hgt]
      simp only [List.length_tail, List.length_append, List.length_cons, List.length_nil]
      omega

/-- Witness for C5: a single structural edit from the initial state
leaves both stacks within the cap. -/
theorem history_stacks_bounded_witness :
    ((init_app (.obj [])).undo_stack = []) ∧
    ((init_app (.obj [])).redo_stack = []) ∧
    ((init_app (.obj [])).undo_limit = 100) ∧
    (run (init_app (.obj [])) [Op.structural_op id]).undo_stack.length ≤ 100 ∧
    (run (init_app (.obj [])) [Op.structural_op id]).redo_stack.length ≤ 100 := by
  have h := history_stacks_bounded (init_app (.obj [])) [Op.structural_op id] rfl rfl rfl
  exact ⟨rfl, rfl, rfl, h.1.1, h.1.2⟩

theorem foldl_norm_fixed (fs : List (JVal → JVal)) (z : JVal)
    (hz : normalize_structure z = z) :
    normalize_structure (fs.foldl (fun acc fi => normalize_structure (fi acc)) z) =
      fs.foldl (fun acc fi => normalize_structure (fi acc)) z := by
  induction fs generalizing z with
  | nil => exact hz
  | cons f rest ih =>
    exact ih (normalize_structure (f z)) (normalize_structure_idem_aux (f z))

theorem group_apply_norm (d : JVal) (g : EditGroup) :
    normalize_structure (group_apply d g) = group_apply d g := by
  cases g with
  | structural_g f => exact normalize_structure_idem_aux (f d)
  | burst f fs =>
    exact foldl_norm_fixed fs (normalize_structure (f d)) (normalize_structure_idem_aux (f d))

theorem foldl_group_apply_norm (gs : List EditGroup) (d : JVal) (hne : gs ≠ []) :
    normalize_structure (gs.foldl group_apply d) = gs.foldl group_apply d := by
  induction gs generalizing d with
  | nil => exact absurd rfl hne
  | cons g rest ih =>
    cases rest with
    | nil => exact group_apply_norm d g
    | cons g' rest' =>
      exact ih (group_apply d g) (List.cons_ne_nil g' rest')

theorem docs_after_length (d : JVal) (gs : List EditGroup) :
    (docs_after d gs).length = gs.length := by
  induction gs generalizing d with
  | nil => rfl
  | cons g rest ih => simp [docs_after, ih]

theorem docs_after_ne_nil (d : JVal) (gs : List EditGroup) (hne : gs ≠ []) :
    docs_after d gs ≠ [] := by
  cases gs with
  | nil => exact absurd rfl hne
  | cons g rest => simp [docs_after]

theorem field_edit_active (f : JVal → JVal) (a : App) (h : a.edit_group_active = true) :
    field_edit f a = { a with data := normalize_structure (f a.data),
                              model_version := a.model_version + 1 } := by
  simp [field_edit, begin_coalesced_edit, h, apply_edit, touch_model]

theorem fold_field_active (fs : List (JVal → JVal)) (a : App)
    (h : a.edit_group_active = true) :
    (fs.foldl (fun acc fi => field_edit fi acc) a).data =
      fs.foldl (fun acc fi => normalize_structure (fi acc)) a.data ∧
    (fs.foldl (fun acc fi => field_edit fi acc) a).undo_stack = a.undo_stack ∧
    (fs.foldl (fun acc fi => field_edit fi acc) a).redo_stack = a.redo_stack ∧
    (fs.foldl (fun acc fi => field_edit fi acc) a).edit_group_active = true ∧
    (fs.foldl (fun acc fi => field_edit fi acc) a).undo_limit = a.undo_limit := by
  induction fs generalizing a with
  | nil => exact ⟨rfl, rfl, rfl, h, rfl⟩
  | cons f rest ih =>
    rw [List.foldl_cons, List.foldl_cons, field_edit_active f a h]
    exact ih { a with data := normalize_structure (f a.data),
                      model_version := a.model_version + 1 } h

theorem run_group_state (a : App) (g : EditGroup)
    (hact : a.edit_group_active = false)
    (hcap : a.undo_stack.length < a.undo_limit) :
    (run_group a g).data = group_apply a.data g ∧
    (run_group a g).undo_stack = a.undo_stack ++ [a.data] ∧
    (run_group a g).redo_stack = [] ∧
    (run_group a g).edit_group_active = false ∧
    (run_group a g).undo_limit = a.undo_limit := by
  have hnocap : ¬ a.undo_limit < a.undo_stack.length + 1 := by omega
  cases g with
  | structural_g f =>
    refine ⟨?_, ?_, ?_, ?_, ?_⟩ <;>
      simp [run_group, structural_command, push_undo_snapshot, apply_edit, touch_model,
        end_coalesced_edit, group_apply, hnocap]
  | burst f fs =>
    have h1 : field_edit f a =
        { a with
          data := normalize_structure (f a.data),
          model_version := a.model_version + 1,
          undo_stack := a.undo_stack ++ [a.data],
          redo_stack := [],
          edit_group_active := true } := by
      simp [field_edit, begin_coalesced_edit, hact, push_undo_snapshot, apply_edit,
        touch_model, hnocap]
    simp only [run_group]
    rw [h1]
    obtain ⟨p1, p2, p3, p4, p5⟩ := fold_field_active fs
      { a with
        data := normalize_structure (f a.data),
        model_version := a.model_version + 1,
        undo_stack := a.undo_stack ++ [a.data],
        redo_stack := [],
        edit_group_active := true } rfl
    exact ⟨by simp [end_coalesced_edit, p1, group_apply],
      by simp [end_coalesced_edit, p2],
      by simp [end_coalesced_edit, p3],
      by simp [end_coalesced_edit],
      by simp [end_coalesced_edit, p5]⟩

theorem run_groups_state (gs : List EditGroup) (a : App)
    (hne : gs ≠ []) (hact : a.edit_group_active = false)
    (hcap : a.undo_stack.length + gs.length ≤ a.undo_limit) :
    (run_groups a gs).data = gs.foldl group_apply a.data ∧
    (run_groups a gs).undo_stack =
      a.undo_stack ++ (a.data :: (docs_after a.data gs).dropLast) ∧
    (run_groups a gs).redo_stack = [] ∧
    (run_groups a gs).edit_group_active = false ∧
    (run_groups a gs).undo_limit = a.undo_limit := by
  induction gs generalizing a with
  | nil => exact absurd rfl hne
  | cons g rest ih =>
    have hcap1 : a.undo_stack.length < a.undo_limit := by
      simp only [List.length_cons] at hcap
      omega
    obtain ⟨q1, q2, q3, q4, q5⟩ := run_group_state a g hact hcap1
    cases rest with
    | nil =>
      refine ⟨?_, ?_, ?_, ?_, ?_⟩
      · show (run_group a g).data = _
        rw [q1]
        rfl
      · show (run_group a g).undo_stack = _
        rw [q2]
        simp [docs_after]
      · exact q3
      · exact q4
      · exact q5
    | cons g2 rest2 =>
      have hne2 : (g2 :: rest2) ≠ ([] : List EditGroup) := List.cons_ne_nil _ _
      have hcap2 : (run_group a g).undo_stack.length + (g2 :: rest2).length ≤
          (run_group a g).undo_limit := by
        rw [q2, q5]
        simp only [List.length_append, List.length_cons, List.length_nil] at hcap ⊢
        omega
      obtain ⟨r1, r2, r3, r4, r5⟩ := ih (run_group a g) hne2 q4 hcap2
      refine ⟨?_, ?_, ?_, ?_, ?_⟩
      · show (run_groups (run_group a g) (g2 :: rest2)).data = _
        rw [r1, q1]
        rfl
      · show (run_groups (run_group a g) (g2 :: rest2)).undo_stack = _
        rw [r2, q2, q1, List.append_assoc]
        have hd : (docs_after a.data (g :: g2 :: rest2)).dropLast =
            group_apply a.data g ::
              (docs_after (group_apply a.data g) (g2 :: rest2)).dropLast := by
          show (group_apply a.data g ::
            docs_after (group_apply a.data g) (g2 :: rest2)).dropLast = _
          rw [List.dropLast_cons_of_ne_nil (docs_after_ne_nil _ _ hne2)]
        rw [hd]
        simp
      · exact r3
      · exact r4
      · show (run_groups (run_group a g) (g2 :: rest2)).undo_limit = _
        rw [r5, q5]

theorem undo_iter_spec (us : List JVal) (stk : List JVal) (a : App)
    (hst : a.undo_stack = us ++ stk) (hne : stk ≠ []) :
    (undo_iter a stk.length).data = normalize_structure stk.headI ∧
    (undo_iter a stk.length).undo_stack = us ∧
    (undo_iter a stk.length).redo_stack =
      a.redo_stack ++ (a.data :: (stk.tail.map normalize_structure).reverse) := by
  induction stk using List.reverseRecOn generalizing a with
  | nil => exact absurd rfl hne
  | append_singleton ys y ih =>
    have hlast : a.undo_stack.getLast? = some y := by
      rw [hst, ← List.append_assoc]
      exact List.getLast?_concat _
    have hu : (do_undo a).undo_stack = us ++ ys := by
      simp only [do_undo, hlast, end_coalesced_edit]
      rw [hst, ← List.append_assoc]
      exact List.dropLast_concat
    have hd : (do_undo a).data = normalize_structure y := by
      simp only [do_undo, hlast, end_coalesced_edit]
    have hr : (do_undo a).redo_stack = a.redo_stack ++ [a.data] := by
      simp only [do_undo, hlast, end_coalesced_edit]
    cases ys with
    | nil =>
      refine ⟨?_, ?_, ?_⟩
      · show (do_undo a).data = _
        rw [hd]
        rfl
      · show (do_undo a).undo_stack = _
        rw [hu, List.append_nil]
      · show (do_undo a).redo_stack = _
        rw [hr]
        rfl
    | cons z zs =>
      have hst2 : (do_undo a).undo_stack = us ++ (z :: zs) := hu
      obtain ⟨r1, r2, r3⟩ := ih (do_undo a) hst2 (List.cons_ne_nil z zs)
      have hlen : ((z :: zs) ++ [y]).length = (z :: zs).length + 1 := by
        simp
      rw [hlen]
      have hstep : undo_iter a ((z :: zs).length + 1) =
          undo_iter (do_undo a) ((z :: zs).length) := rfl
      rw [hstep]
      refine ⟨?_, r2, ?_⟩
      · rw [r1]
        rfl
      · rw [r3, hr, hd]
        show _ = a.redo_stack ++ a.data :: (((z :: zs).tail ++ [y]).map
          normalize_structure).reverse
        rw [List.map_append, List.reverse_append]
        simp

theorem redo_iter_spec (rs : List JVal) (stk : List JVal) (a : App)
    (hst : a.redo_stack = rs ++ stk) (hne : stk ≠ []) :
    (redo_iter a stk.length).data = normalize_structure stk.headI ∧
    (redo_iter a stk.length).redo_stack = rs := by
  induction stk using List.reverseRecOn generalizing a with
  | nil => exact absurd rfl hne
  | append_singleton ys y ih =>
    have hlast : a.redo_stack.getLast? = some y := by
      rw [hst, ← List.append_assoc]
      exact List.getLast?_concat _
    have hd : (do_redo a).data = normalize_structure y := by
      simp only [do_redo, hlast, end_coalesced_edit]
    have hr : (do_redo a).redo_stack = rs ++ ys := by
      simp only [do_redo, hlast, end_coalesced_edit]
      rw [hst, ← List.append_assoc]
      exact List.dropLast_concat
    cases ys with
    | nil =>
      refine ⟨?_, ?_⟩
      · show (do_redo a).data = _
        rw [hd]
        rfl
      · show (do_redo a).redo_stack = _
        rw [hr, List.append_nil]
    | cons z zs =>
      obtain ⟨r1, r2⟩ := ih (do_redo a) hr (List.cons_ne_nil z zs)
      have hlen : ((z :: zs) ++ [y]).length = (z :: zs).length + 1 := by
        simp
      rw [hlen]
      have hstep : redo_iter a ((z :: zs).length + 1) =
          redo_iter (do_redo a) ((z :: zs).length) := rfl
      rw [hstep]
      exact ⟨by rw [r1]; rfl, r2⟩

/-- C3 (amended): for a nonempty sequence M of mutation groups from
state S (each field-edit burst beginning one coalesced group, each
structural command pushing its own snapshot), whose snapshots fit
within the undo cap, calling `undo()` once per group of M restores a
document equal to S after normalization, and calling `redo()` the same
number of times immediately afterwards restores the exact post-M
document; `undo()` with an empty undo stack and `redo()` with an empty
redo stack are each no-ops.  (A single `undo()` after a multi-group M
only reverts the last group — see the counterexample.) -/
theorem undo_redo_inverse (gs : List EditGroup) (a0 : App)
    (hne : gs ≠ []) (hact : a0.edit_group_active = false)
    (hcap : a0.undo_stack.length + gs.length ≤ a0.undo_limit) :
    (undo_iter (run_groups a0 gs) gs.length).data = normalize_structure a0.data ∧
    (redo_iter (undo_iter (run_groups a0 gs) gs.length) gs.length).data =
      (run_groups a0 gs).data ∧
    (∀ a : App, a.undo_stack = [] → do_undo a = a) ∧
    (∀ a : App, a.redo_stack = [] → do_redo a = a) := by
  obtain ⟨e1, e2, e3, e4, e5⟩ := run_groups_state gs a0 hne hact hcap
  have hgs1 : 1 ≤ gs.length := List.length_pos.mpr hne
  have hstk_ne : (a0.data :: (docs_after a0.data gs).dropLast) ≠ [] :=
    List.cons_ne_nil _ _
  have hstklen : (a0.data :: (docs_after a0.data gs).dropLast).length = gs.length := by
    simp only [List.length_cons, List.length_dropLast, docs_after_length]
    omega
  obtain ⟨u1, u2, u3⟩ := undo_iter_spec a0.undo_stack
    (a0.data :: (docs_after a0.data gs).dropLast) (run_groups a0 gs) e2 hstk_ne
  rw [hstklen] at u1 u2 u3
  refine ⟨?_, ?_, ?_, ?_⟩
  · rw [u1]
    rfl
  · have hredo : (undo_iter (run_groups a0 gs) gs.length).redo_stack =
        [] ++ ((gs.foldl group_apply a0.data) ::
          (((docs_after a0.data gs).dropLast).map normalize_structure).reverse) := by
      rw [u3, e3, e1]
      rfl
    have htne : ((gs.foldl group_apply a0.data) ::
        (((docs_after a0.data gs).dropLast).map normalize_structure).reverse) ≠ [] :=
      List.cons_ne_nil _ _
    have htlen : ((gs.foldl group_apply a0.data) ::
        (((docs_after a0.data gs).dropLast).map normalize_structure).reverse).length =
        gs.length := by
      simp only [List.length_cons, List.length_reverse, List.length_map,
        List.length_dropLast, docs_after_length]
      omega
    obtain ⟨v1, v2⟩ := redo_iter_spec []
      ((gs.foldl group_apply a0.data) ::
        (((docs_after a0.data gs).dropLast).map normalize_structure).reverse)
      (undo_iter (run_groups a0 gs) gs.length) hredo htne
    rw [htlen] at v1
    rw [v1, e1]
    exact foldl_group_apply_norm gs a0.data hne
  · intro a ha
    simp [do_undo, ha]
  · intro a ha
    simp [do_redo, ha]

/-- Counterexample to C3 as stated: after a sequence of two structural
commands, a single `undo()` restores the intermediate document (the
state before the *last* group), not the pre-sequence document. -/
theorem undo_redo_inverse_cex :
    (do_undo (run_groups (init_app (.obj []))
      [EditGroup.structural_g (fun _ => .obj [("x", .str "1")]),
       EditGroup.structural_g (fun _ => .obj [("y", .str "2")])])).data ≠
    normalize_structure (init_app (.obj [])).data := by
  intro h
  have h2 := congrArg (fun d => (lookupKey "x" (docFields d)).isSome) h
  exact Bool.noConfusion (show true = false from h2)

/-- Witness for C3 (amended): one structural command, one undo. -/
theorem undo_redo_inverse_witness :
    ([EditGroup.structural_g id] ≠ ([] : List EditGroup)) ∧
    ((init_app (.obj [])).edit_group_active = false) ∧
    ((init_app (.obj [])).undo_stack.length + [EditGroup.structural_g id].length ≤
      (init_app (.obj [])).undo_limit) ∧
    (undo_iter (run_groups (init_app (.obj [])) [EditGroup.structural_g id]) 1).data =
      normalize_structure (init_app (.obj [])).data := by
  have h := undo_redo_inverse [EditGroup.structural_g id] (init_app (.obj []))
    (List.cons_ne_nil _ _) rfl (by decide)
  exact ⟨List.cons_ne_nil _ _, rfl, by decide, h.1⟩
